import Mathlib

/-!
Verification development for the Python DDP solver in
`unittest/bindings/utils.py` (classes `StateVectorDerived` and `DDPDerived`).

Embedding choices:
* numpy column vectors of dimension `n` become `Fin n → ℚ`, numpy matrices
  become `Matrix (Fin m) (Fin n) ℚ`; all floating-point arithmetic is embedded
  as exact rational arithmetic.
* `raiseIfNan` checks for NaN, Inf, or magnitude above 1e30.  In exact
  rational arithmetic NaN and Inf cannot arise, so the check keeps its
  magnitude component (`> 10^30`).
* Python exceptions (`ArithmeticError`) become `Except Unit` return types;
  a `try/except` block becomes a `match` on that result.
* The solver's per-stage buffers, indexed lists in Python, become total maps
  `ℕ → _`; in-place writes become `Function.update`.  Indices beyond the
  horizon hold junk that the code never reads.
* The abstract base classes `crocoddyl.StateAbstract`,
  `crocoddyl.ActionModelAbstract` and the `crocoddyl.ShootingProblem` /
  `crocoddyl.SolverAbstract` containers are C++ code that is not part of the
  repository sources; the few members the solver uses (`State.diff`,
  `calc`/`calcDiff` data fields, `problem.calcDiff`, `setCandidate`,
  `th_stop`, `th_acceptStep`) are modelled from the specification.
-/

set_option maxRecDepth 100000
set_option maxHeartbeats 1000000

namespace CrocoddylDDP

open scoped Matrix

-- The rational-arithmetic primitives are `@[irreducible]` upstream, which
-- blocks kernel evaluation of the executable definitions below; re-expose
-- them locally so that concrete runs of the solver can be evaluated.
attribute [local semireducible] Rat.add Rat.mul Rat.sub Rat.inv

/-- Column vector of dimension `n` over exact rationals. -/
abbrev QVec (n : ℕ) := Fin n → ℚ

/-- Matrix with `m` rows and `n` columns over exact rationals. -/
abbrev QMat (m n : ℕ) := Matrix (Fin m) (Fin n) ℚ

/-! ### Solver constants (from `DDPDerived.__init__`) -/

/-- `self.regFactor = 10` -/
def regFactor : ℚ := 10

/-- `self.regMax = 1e9` -/
def regMax : ℚ := 10 ^ 9

/-- `self.regMin = 1e-9` -/
def regMin : ℚ := 1 / 10 ^ 9

/-- `self.th_step = .5` -/
def th_step : ℚ := 1 / 2

/-- `self.th_grad = 1e-12` -/
def th_grad : ℚ := 1 / 10 ^ 12

/-- The magnitude bound of `raiseIfNan`: `abs(A) > 1e30` is an error. -/
def nanBound : ℚ := 10 ^ 30

/-- `self.alphas = [2**(-n) for n in range(10)]` -/
def alphas : List ℚ := (List.range 10).map (fun n => (1 / 2 : ℚ) ^ n)

/-- `self.alphas[-1]`, the smallest step size of the ladder. -/
def alphaLast : ℚ := alphas.getLastD 0

/-- Modelled from the spec: the two acceptance thresholds `th_stop` (stopping
tolerance, 1e-9 by convention but configurable) and `th_acceptStep` (fixed
fraction of the expected improvement) live on the `crocoddyl.SolverAbstract`
base class, which is not part of the repository sources.  They are carried
as abstract rational parameters. -/
structure Thresholds where
  th_stop : ℚ
  th_acceptStep : ℚ

/-! ### `StateVectorDerived`: the flat (Euclidean) state manifold -/

namespace StateVectorDerived

/-- `zero(self)`: the zero vector of dimension `nx`. -/
def zero (nx : ℕ) : QVec nx := fun _ => 0

/-- `diff(self, x0, x1) = x1 - x0`. -/
def diff {nx : ℕ} (x0 x1 : QVec nx) : QVec nx := x1 - x0

/-- `integrate(self, x, dx) = x + dx`. -/
def integrate {nx : ℕ} (x dx : QVec nx) : QVec nx := x + dx

/-- `Jdiff(x1, x2, 'first') = -eye(ndx)`. -/
def JdiffFirst (nx : ℕ) : QMat nx nx := -(1 : QMat nx nx)

/-- `Jdiff(x1, x2, 'second') = eye(ndx)`. -/
def JdiffSecond (nx : ℕ) : QMat nx nx := 1

/-- `Jintegrate(x, dx, _) = eye(ndx)`. -/
def Jintegrate (nx : ℕ) : QMat nx nx := 1

end StateVectorDerived

/-! ### Action models and their data records

The solver consumes stage models through the `crocoddyl.ActionModelAbstract`
contract: `calc` produces `xnext` and `cost`, `calcDiff` produces the first
derivatives, and `State.diff` is the manifold difference.  A model is a
record of those (pure) functions; all stages share the state dimension `ndx`
(the only manifold in the sources is flat, so `nx = ndx`) and the control
dimension `nu`. -/

structure ActionModel (ndx nu : ℕ) where
  /-- `m.State.diff`: the manifold difference used by the solver. -/
  stateDiff : QVec ndx → QVec ndx → QVec ndx
  /-- `data.xnext` produced by `calc(data, x, u)`. -/
  xnext : QVec ndx → QVec nu → QVec ndx
  /-- `data.cost` produced by `calc(data, x, u)`. -/
  cost : QVec ndx → QVec nu → ℚ
  Lx : QVec ndx → QVec nu → QVec ndx
  Lu : QVec ndx → QVec nu → QVec nu
  Lxx : QVec ndx → QVec nu → QMat ndx ndx
  Luu : QVec ndx → QVec nu → QMat nu nu
  Lxu : QVec ndx → QVec nu → QMat ndx nu
  Fx : QVec ndx → QVec nu → QMat ndx ndx
  Fu : QVec ndx → QVec nu → QMat ndx nu

/-- The terminal model is queried at a state only. -/
structure TerminalModel (ndx : ℕ) where
  cost : QVec ndx → ℚ
  Lx : QVec ndx → QVec ndx
  Lxx : QVec ndx → QMat ndx ndx

/-- One stage's data payload after `calc`/`calcDiff` (the fields of
`problem.runningDatas[t]` the solver reads). -/
structure ActionData (ndx nu : ℕ) where
  xnext : QVec ndx
  cost : ℚ
  Lx : QVec ndx
  Lu : QVec nu
  Lxx : QMat ndx ndx
  Luu : QMat nu nu
  Lxu : QMat ndx nu
  Fx : QMat ndx ndx
  Fu : QMat ndx nu

/-- The terminal data payload (`problem.terminalData`). -/
structure TerminalData (ndx : ℕ) where
  cost : ℚ
  Lx : QVec ndx
  Lxx : QMat ndx ndx

/-- Modelled from the spec: `crocoddyl.ShootingProblem` — an ordered chain of
`T` stage models, a terminal model and an initial state.  The stage list is a
total map; indices `≥ T` are never used. -/
structure ShootingProblem (ndx nu : ℕ) where
  T : ℕ
  initialState : QVec ndx
  runningModels : ℕ → ActionModel ndx nu
  terminalModel : TerminalModel ndx

/-! ### Rational linear algebra helpers

`scipy.linalg.cho_factor` succeeds exactly when the (symmetric) matrix is
positive definite, and `cho_solve` then returns the unique solution of the
linear system, i.e. the inverse applied to the right-hand side.  Over exact
rationals this is embedded with an executable determinant (Laplace expansion
along the first column), Sylvester's criterion (all leading principal minors
positive) as the factorization-success test, and the adjugate formula for the
inverse. -/

/-- Executable determinant by cofactor expansion along the first column. -/
def detQ : {n : ℕ} → QMat n n → ℚ
  | 0, _ => 1
  | n + 1, A =>
      ∑ i : Fin (n + 1), (-1 : ℚ) ^ (i : ℕ) * A i 0 * detQ (A.submatrix i.succAbove Fin.succ)

/-- Adjugate entry `(i, j)`: the cofactor of entry `(j, i)`. -/
def adjQ {n : ℕ} (A : QMat (n + 1) (n + 1)) (i j : Fin (n + 1)) : ℚ :=
  (-1 : ℚ) ^ ((i : ℕ) + (j : ℕ)) * detQ (A.submatrix j.succAbove i.succAbove)

/-- Executable matrix inverse via the adjugate formula (the unique inverse
whenever the determinant is nonzero). -/
def invQ : {n : ℕ} → QMat n n → QMat n n
  | 0, _ => 1
  | _ + 1, A => (detQ A)⁻¹ • Matrix.of fun i j => adjQ A i j

/-- The top-left `(k+1) × (k+1)` block of a square matrix. -/
def leadingBlock {n : ℕ} (A : QMat n n) (k : Fin n) : QMat ((k : ℕ) + 1) ((k : ℕ) + 1) :=
  A.submatrix (Fin.castLE (Nat.succ_le_of_lt k.isLt)) (Fin.castLE (Nat.succ_le_of_lt k.isLt))

/-- Success test of `scl.cho_factor`: positive definiteness by Sylvester's
criterion (every leading principal minor is positive). -/
def choleskyOk {n : ℕ} (A : QMat n n) : Bool :=
  decide (∀ k : Fin n, 0 < detQ (leadingBlock A k))

/-- `raiseIfNan` on a vector: true when some entry violates the magnitude
bound (NaN and Inf cannot arise in exact arithmetic). -/
def vecBad {n : ℕ} (v : QVec n) : Bool :=
  decide (∃ i, nanBound < |v i|)

/-- `raiseIfNan` on a matrix. -/
def matBad {m n : ℕ} (A : QMat m n) : Bool :=
  decide (∃ i j, nanBound < |A i j|)

/-- `raiseIfNan` on a scalar. -/
def numBad (q : ℚ) : Bool := decide (nanBound < |q|)

/-! ### The solver state

All attributes of a `DDPDerived` instance that the algorithms read or write.
The buffers allocated by `allocateData` are total maps; the aliased views
`Qux[t] = Qxu[t].T` of the source are not stored, the transpose is taken at
the use site as in the source. -/

structure DDPState (ndx nu : ℕ) where
  xs : ℕ → QVec ndx
  us : ℕ → QVec nu
  isFeasible : Bool
  wasFeasible : Bool
  x_reg : ℚ
  u_reg : ℚ
  cost : ℚ
  cost_try : ℚ
  dV : ℚ
  dV_exp : ℚ
  stepLength : ℚ
  stop : ℚ
  iter : ℕ
  gaps : ℕ → QVec ndx
  datas : ℕ → ActionData ndx nu
  terminalData : TerminalData ndx
  Vx : ℕ → QVec ndx
  Vxx : ℕ → QMat ndx ndx
  Qx : ℕ → QVec ndx
  Qu : ℕ → QVec nu
  Qxx : ℕ → QMat ndx ndx
  Qxu : ℕ → QMat ndx nu
  Quu : ℕ → QMat nu nu
  K : ℕ → QMat nu ndx
  k : ℕ → QVec nu
  xs_try : ℕ → QVec ndx
  us_try : ℕ → QVec nu

variable {ndx nu : ℕ}

/-- Modelled from the spec: `SolverAbstract.setCandidate(xs, us, isFeasible)`
(base-class code, not in the repository sources) copies the given trajectory
into the solver's candidate and records the feasibility flag. -/
def setCandidate (s : DDPState ndx nu) (xs : ℕ → QVec ndx) (us : ℕ → QVec nu)
    (feas : Bool) : DDPState ndx nu :=
  { s with xs := xs, us := us, isFeasible := feas }

/-- The zeroed stage data record (fresh buffers). -/
def zeroData (ndx nu : ℕ) : ActionData ndx nu :=
  { xnext := fun _ => 0, cost := 0, Lx := fun _ => 0, Lu := fun _ => 0,
    Lxx := 0, Luu := 0, Lxu := 0, Fx := 0, Fu := 0 }

/-- The solver state at entry of the iteration loop of `solve`: buffers as
laid out by `allocateData` (value buffers zeroed, `gaps` zeroed, `xs_try[0]`
pinned to the problem's initial state — the NaN filler of the other `xs_try`
and the `us_try` entries is junk that is always overwritten before being
read, and is represented by `0`), then `setCandidate(init_xs, init_us,
isFeasible)`, `x_reg = u_reg = regInit if regInit is not None else regMin`,
and `wasFeasible = False`. -/
def mkSolveState (p : ShootingProblem ndx nu) (init_xs : ℕ → QVec ndx)
    (init_us : ℕ → QVec nu) (feas : Bool) (regInit : Option ℚ) : DDPState ndx nu :=
  { xs := init_xs, us := init_us, isFeasible := feas, wasFeasible := false,
    x_reg := regInit.getD regMin, u_reg := regInit.getD regMin,
    cost := 0, cost_try := 0, dV := 0, dV_exp := 0, stepLength := 0,
    stop := 0, iter := 0,
    gaps := fun _ => fun _ => 0,
    datas := fun _ => zeroData ndx nu,
    terminalData := { cost := 0, Lx := fun _ => 0, Lxx := 0 },
    Vx := fun _ => fun _ => 0, Vxx := fun _ => 0,
    Qx := fun _ => fun _ => 0, Qu := fun _ => fun _ => 0,
    Qxx := fun _ => 0, Qxu := fun _ => 0, Quu := fun _ => 0,
    K := fun _ => 0, k := fun _ => fun _ => 0,
    xs_try := fun i => if i = 0 then p.initialState else fun _ => 0,
    us_try := fun _ => fun _ => 0 }

/-! ### `problem.calcDiff` and the solver's `calc` -/

/-- Modelled from the spec: `ShootingProblem.calcDiff(xs, us)` evaluates every
stage model's `calc` and `calcDiff` at `(xs[i], us[i])`, the terminal model at
`xs[T]`, and returns the total cost (sum of stage costs plus terminal cost).
Stage indices `≥ T` keep junk data that is never read. -/
def problemCalcDiff (p : ShootingProblem ndx nu) (xs : ℕ → QVec ndx)
    (us : ℕ → QVec nu) : (ℕ → ActionData ndx nu) × TerminalData ndx × ℚ :=
  let datas : ℕ → ActionData ndx nu := fun i =>
    let m := p.runningModels i
    { xnext := m.xnext (xs i) (us i), cost := m.cost (xs i) (us i),
      Lx := m.Lx (xs i) (us i), Lu := m.Lu (xs i) (us i),
      Lxx := m.Lxx (xs i) (us i), Luu := m.Luu (xs i) (us i),
      Lxu := m.Lxu (xs i) (us i), Fx := m.Fx (xs i) (us i),
      Fu := m.Fu (xs i) (us i) }
  let td : TerminalData ndx :=
    { cost := p.terminalModel.cost (xs p.T), Lx := p.terminalModel.Lx (xs p.T),
      Lxx := p.terminalModel.Lxx (xs p.T) }
  (datas, td, (∑ i ∈ Finset.range p.T, (datas i).cost) + td.cost)

/-- `DDPDerived.calc` (named `calcPass` because `calc` is a Lean keyword):
evaluate the problem, store the data and the total cost, and, when the
candidate is not flagged feasible, compute the gaps
`gaps[0] = State.diff(xs[0], initialState)` and
`gaps[i+1] = State.diff(xs[i+1], datas[i].xnext)`.  Returns the updated
solver state together with the returned cost. -/
def calcPass (p : ShootingProblem ndx nu) (s : DDPState ndx nu) :
    DDPState ndx nu × ℚ :=
  let r := problemCalcDiff p s.xs s.us
  let s1 := { s with datas := r.1, terminalData := r.2.1, cost := r.2.2 }
  if s1.isFeasible then (s1, r.2.2)
  else
    let gaps : ℕ → QVec ndx := fun i =>
      if i = 0 then (p.runningModels 0).stateDiff (s1.xs 0) p.initialState
      else if i ≤ p.T then
        (p.runningModels (i - 1)).stateDiff (s1.xs i) ((r.1 (i - 1)).xnext)
      else s1.gaps i
    ({ s1 with gaps := gaps }, r.2.2)

/-! ### Backward pass -/

/-- `Qxx[t] = Lxx + Fx.T * Vxx[t+1] * Fx`. -/
def bwQxx (s : DDPState ndx nu) (t : ℕ) : QMat ndx ndx :=
  (s.datas t).Lxx + (s.datas t).Fxᵀ * s.Vxx (t + 1) * (s.datas t).Fx

/-- `Qxu[t] = Lxu + Fx.T * Vxx[t+1] * Fu`. -/
def bwQxu (s : DDPState ndx nu) (t : ℕ) : QMat ndx nu :=
  (s.datas t).Lxu + (s.datas t).Fxᵀ * s.Vxx (t + 1) * (s.datas t).Fu

/-- `Quu[t] = Luu + Fu.T * Vxx[t+1] * Fu`, then `u_reg` added to the diagonal
when `u_reg != 0`. -/
def bwQuu (s : DDPState ndx nu) (t : ℕ) : QMat nu nu :=
  let base := (s.datas t).Luu + (s.datas t).Fuᵀ * s.Vxx (t + 1) * (s.datas t).Fu
  if s.u_reg ≠ 0 then base + s.u_reg • (1 : QMat nu nu) else base

/-- The relinearization term `Vxx[t+1] * gaps[t+1]` of the infeasible case. -/
def bwRelin (s : DDPState ndx nu) (t : ℕ) : QVec ndx :=
  (s.Vxx (t + 1)).mulVec (s.gaps (t + 1))

/-- `Qx[t] = Lx + Fx.T * Vx[t+1]`, plus `Fx.T * (Vxx[t+1] * gaps[t+1])` when
the candidate is not feasible. -/
def bwQx (s : DDPState ndx nu) (t : ℕ) : QVec ndx :=
  let base := (s.datas t).Lx + (s.datas t).Fxᵀ.mulVec (s.Vx (t + 1))
  if s.isFeasible then base else base + (s.datas t).Fxᵀ.mulVec (bwRelin s t)

/-- `Qu[t] = Lu + Fu.T * Vx[t+1]`, plus `Fu.T * (Vxx[t+1] * gaps[t+1])` when
the candidate is not feasible. -/
def bwQu (s : DDPState ndx nu) (t : ℕ) : QVec nu :=
  let base := (s.datas t).Lu + (s.datas t).Fuᵀ.mulVec (s.Vx (t + 1))
  if s.isFeasible then base else base + (s.datas t).Fuᵀ.mulVec (bwRelin s t)

/-- `DDPDerived.computeGains(t)`: Cholesky-factorize `Quu[t]` and solve for
`K[t] = Quu[t]⁻¹ * Qux[t]` (where `Qux[t] = Qxu[t].T`) and
`k[t] = Quu[t]⁻¹ * Qu[t]`; a failed factorization (not positive definite)
raises `ArithmeticError`.  A zero-dimensional control leaves the (empty)
gains untouched. -/
def computeGains (s : DDPState ndx nu) (t : ℕ) : Except Unit (DDPState ndx nu) :=
  if 0 < nu then
    if choleskyOk (s.Quu t) then
      .ok { s with K := Function.update s.K t (invQ (s.Quu t) * (s.Qxu t)ᵀ),
                   k := Function.update s.k t ((invQ (s.Quu t)).mulVec (s.Qu t)) }
    else .error ()
  else .ok s

/-- `Vx[t]`: `Qx[t] - K[t].T * Qu[t]` when `u_reg == 0`, otherwise
`Qx[t] - 2 * K[t].T * Qu[t] + K[t].T * Quu[t] * k[t]` (reads the buffers the
backward step just wrote). -/
def bwVx (s : DDPState ndx nu) (t : ℕ) : QVec ndx :=
  if s.u_reg = 0 then s.Qx t - (s.K t)ᵀ.mulVec (s.Qu t)
  else s.Qx t - (2 : ℚ) • ((s.K t)ᵀ.mulVec (s.Qu t)) +
    (s.K t)ᵀ.mulVec ((s.Quu t).mulVec (s.k t))

/-- `Vxx[t] = Qxx[t] - Qxu[t] * K[t]`, symmetrized as `0.5 * (V + V.T)`,
with `x_reg` added to the diagonal when `x_reg != 0`. -/
def bwVxx (s : DDPState ndx nu) (t : ℕ) : QMat ndx ndx :=
  let V := s.Qxx t - s.Qxu t * s.K t
  let W := (1 / 2 : ℚ) • (V + Vᵀ)
  if s.x_reg ≠ 0 then W + s.x_reg • (1 : QMat ndx ndx) else W

/-- The five writes `Qxx[t][:] = ...` .. `Qu[t][:] = ...` of the backward
loop body. -/
def bwWriteQ (s : DDPState ndx nu) (t : ℕ) : DDPState ndx nu :=
  { s with Qxx := Function.update s.Qxx t (bwQxx s t),
           Qxu := Function.update s.Qxu t (bwQxu s t),
           Quu := Function.update s.Quu t (bwQuu s t),
           Qx := Function.update s.Qx t (bwQx s t),
           Qu := Function.update s.Qu t (bwQu s t) }

/-- The two writes `Vx[t][:] = ...` and `Vxx[t][:,:] = ...` of the backward
loop body. -/
def bwWriteV (s : DDPState ndx nu) (t : ℕ) : DDPState ndx nu :=
  { s with Vx := Function.update s.Vx t (bwVx s t),
           Vxx := Function.update s.Vxx t (bwVxx s t) }

/-- One iteration of the backward loop at stage `t`: write the `Q` buffers,
compute the gains, write `Vx[t]`/`Vxx[t]`, and run the `raiseIfNan` checks. -/
def bwStep (s : DDPState ndx nu) (t : ℕ) : Except Unit (DDPState ndx nu) :=
  match computeGains (bwWriteQ s t) t with
  | .error e => .error e
  | .ok s2 =>
      if matBad (bwVxx s2 t) || vecBad (bwVx s2 t) then .error ()
      else .ok (bwWriteV s2 t)

/-- The backward recursion over a list of stage indices. -/
def backwardLoop : DDPState ndx nu → List ℕ → Except Unit (DDPState ndx nu)
  | s, [] => .ok s
  | s, t :: ts =>
      match bwStep s t with
      | .error e => .error e
      | .ok s1 => backwardLoop s1 ts

/-- `DDPDerived.backwardPass`: initialize the terminal value derivatives from
the terminal data (adding `x_reg` to the terminal Hessian's diagonal when
nonzero), then recurse from stage `T-1` down to `0`. -/
def backwardPass (p : ShootingProblem ndx nu) (s : DDPState ndx nu) :
    Except Unit (DDPState ndx nu) :=
  let VxxT :=
    if s.x_reg ≠ 0 then s.terminalData.Lxx + s.x_reg • (1 : QMat ndx ndx)
    else s.terminalData.Lxx
  backwardLoop
    { s with Vx := Function.update s.Vx p.T s.terminalData.Lx,
             Vxx := Function.update s.Vxx p.T VxxT }
    ((List.range p.T).reverse)

/-- `DDPDerived.computeDirection(recalc)`: optionally run `calc`, then the
backward pass, and return the triple
`([np.nan] * (T+1), self.k, self.Vx)` together with the updated state.  The
float `nan` has no rational counterpart; the placeholder entries are
represented by `none : Option ℚ`. -/
def computeDirection (p : ShootingProblem ndx nu) (recalc : Bool)
    (s : DDPState ndx nu) :
    Except Unit (DDPState ndx nu × List (Option ℚ) × (ℕ → QVec nu) × (ℕ → QVec ndx)) :=
  let s1 := if recalc then (calcPass p s).1 else s
  match backwardPass p s1 with
  | .error e => .error e
  | .ok s2 => .ok (s2, List.replicate (p.T + 1) none, s2.k, s2.Vx)

/-- `DDPDerived.stoppingCriteria`: `sum(asscalar(q.T * q) for q in self.Qu)`. -/
def stoppingCriteria (p : ShootingProblem ndx nu) (s : DDPState ndx nu) : ℚ :=
  ∑ t ∈ Finset.range p.T, Matrix.dotProduct (s.Qu t) (s.Qu t)

/-- `DDPDerived.expectedImprovement`: the pair
`(d1, d2) = (sum(Qu[t].T * k[t]), sum(-k[t].T * Quu[t] * k[t]))`. -/
def expectedImprovement (p : ShootingProblem ndx nu) (s : DDPState ndx nu) :
    ℚ × ℚ :=
  (∑ t ∈ Finset.range p.T, Matrix.dotProduct (s.Qu t) (s.k t),
   ∑ t ∈ Finset.range p.T, -Matrix.dotProduct (s.k t) ((s.Quu t).mulVec (s.k t)))

/-! ### Forward pass -/

/-- One stage of the forward rollout: compute the tried control
`utry[t] = us[t] - k[t] * stepLength - K[t] · State.diff(xs[t], xtry[t])`,
evaluate the stage model, accumulate the cost, and run the `raiseIfNan`
checks on `[ctry, cost]` and on `xtry[t+1]`. -/
def fwStep (p : ShootingProblem ndx nu) (s : DDPState ndx nu) (stepLength : ℚ)
    (acc : (ℕ → QVec ndx) × (ℕ → QVec nu) × ℚ) (t : ℕ) :
    Except Unit ((ℕ → QVec ndx) × (ℕ → QVec nu) × ℚ) :=
  let m := p.runningModels t
  let u := s.us t - stepLength • s.k t -
    (s.K t).mulVec (m.stateDiff (s.xs t) (acc.1 t))
  let xnext := m.xnext (acc.1 t) u
  let c := m.cost (acc.1 t) u
  let ctry1 := acc.2.2 + c
  if numBad ctry1 || numBad c then .error ()
  else if vecBad xnext then .error ()
  else .ok (Function.update acc.1 (t + 1) xnext, Function.update acc.2.1 t u, ctry1)

/-- The forward rollout over a list of stage indices. -/
def forwardLoop (p : ShootingProblem ndx nu) (s : DDPState ndx nu)
    (stepLength : ℚ) :
    (ℕ → QVec ndx) × (ℕ → QVec nu) × ℚ → List ℕ →
      Except Unit ((ℕ → QVec ndx) × (ℕ → QVec nu) × ℚ)
  | acc, [] => .ok acc
  | acc, t :: ts =>
      match fwStep p s stepLength acc t with
      | .error e => .error e
      | .ok acc1 => forwardLoop p s stepLength acc1 ts

/-- The final writes of `forwardPass`: store the tried trajectory and the
tried cost (rollout cost plus terminal cost). -/
def fwFinish (p : ShootingProblem ndx nu) (s : DDPState ndx nu)
    (acc : (ℕ → QVec ndx) × (ℕ → QVec nu) × ℚ) : DDPState ndx nu :=
  { s with xs_try := acc.1, us_try := acc.2.1,
           cost_try := acc.2.2 + p.terminalModel.cost (acc.1 p.T) }

/-- `DDPDerived.forwardPass(stepLength)`: roll the candidate out for stages
`0..T-1` starting from the `xs_try`/`us_try` buffers (whose index 0 holds the
problem's initial state), add the terminal cost, check it, and store the
tried trajectory and cost in the state. -/
def forwardPass (p : ShootingProblem ndx nu) (s : DDPState ndx nu)
    (stepLength : ℚ) : Except Unit (DDPState ndx nu) :=
  match forwardLoop p s stepLength (s.xs_try, s.us_try, 0) (List.range p.T) with
  | .error e => .error e
  | .ok acc =>
      if numBad (acc.2.2 + p.terminalModel.cost (acc.1 p.T)) then .error ()
      else .ok (fwFinish p s acc)

/-- `DDPDerived.tryStep(stepLength)`: run the forward pass and return
`cost - cost_try` together with the updated state. -/
def tryStep (p : ShootingProblem ndx nu) (s : DDPState ndx nu)
    (stepLength : ℚ) : Except Unit (DDPState ndx nu × ℚ) :=
  match forwardPass p s stepLength with
  | .error e => .error e
  | .ok s1 => .ok (s1, s1.cost - s1.cost_try)

/-! ### Regularization updates -/

/-- `DDPDerived.increaseRegularization`: multiply `x_reg` by `regFactor`,
cap it at `regMax`, and copy it to `u_reg`. -/
def increaseRegularization (s : DDPState ndx nu) : DDPState ndx nu :=
  let v := s.x_reg * regFactor
  let v1 := if regMax < v then regMax else v
  { s with x_reg := v1, u_reg := v1 }

/-- `DDPDerived.decreaseRegularization`: divide `x_reg` by `regFactor`,
floor it at `regMin`, and copy it to `u_reg`. -/
def decreaseRegularization (s : DDPState ndx nu) : DDPState ndx nu :=
  let v := s.x_reg / regFactor
  let v1 := if v < regMin then regMin else v
  { s with x_reg := v1, u_reg := v1 }

/-! ### Line search and the `solve` loop -/

/-- The state after a successful `tryStep` in the line search: the forward
pass result with `self.dV` and `self.dV_exp = a * (d1 + .5 * d2 * a)`
recorded. -/
def lsTrialState (r : DDPState ndx nu × ℚ) (a d1 d2 : ℚ) : DDPState ndx nu :=
  { r.1 with dV := r.2, dV_exp := a * (d1 + (1 / 2) * d2 * a) }

/-- The acceptance writes of the line search:
`self.wasFeasible = self.isFeasible`,
`self.setCandidate(self.xs_try, self.us_try, True)`,
`self.cost = self.cost_try`. -/
def lsAcceptState (s1 : DDPState ndx nu) : DDPState ndx nu :=
  let s2 := setCandidate s1 s1.xs_try s1.us_try true
  { s2 with wasFeasible := s1.isFeasible, cost := s1.cost_try }

/-- The line-search loop body of `solve`, recursing over the remaining step
sizes.  Returns the final state, the last value of the loop variable `a`
(the accepted step size, or the last tried one when the ladder is
exhausted), and whether a step was accepted (the `break` of the source).
An `ArithmeticError` of `tryStep` skips to the next step size.  Acceptance
(`d1 < th_grad or not isFeasible or dV > th_acceptStep * dV_exp`) commits
via `lsAcceptState`. -/
def lsGo (p : ShootingProblem ndx nu) (th : Thresholds) (d1 d2 : ℚ) :
    DDPState ndx nu → List ℚ → DDPState ndx nu × ℚ × Bool
  | s, [] => (s, 0, false)
  | s, a :: rest =>
      match tryStep p s a with
      | .error _ => if rest.isEmpty then (s, a, false) else lsGo p th d1 d2 s rest
      | .ok r =>
          let s1 := lsTrialState r a d1 d2
          if d1 < th_grad ∨ s1.isFeasible = false ∨
              th.th_acceptStep * s1.dV_exp < s1.dV then
            (lsAcceptState s1, a, true)
          else if rest.isEmpty then (s1, a, false) else lsGo p th d1 d2 s1 rest

/-- The line search of `solve`: try the step sizes of `alphas` in order. -/
def lineSearch (p : ShootingProblem ndx nu) (th : Thresholds) (d1 d2 : ℚ)
    (s : DDPState ndx nu) : DDPState ndx nu × ℚ × Bool :=
  lsGo p th d1 d2 s alphas

/-- The regularization update after the line search:
`if a > th_step: decreaseRegularization()`, then
`if a == alphas[-1]: increaseRegularization()`, reporting whether the
saturation check `x_reg == regMax` fired (which makes `solve` return). -/
def regUpdatePhase (a : ℚ) (s : DDPState ndx nu) : DDPState ndx nu × Bool :=
  let s1 := if th_step < a then decreaseRegularization s else s
  if a = alphaLast then
    let s2 := increaseRegularization s1
    (s2, decide (s2.x_reg = regMax))
  else (s1, false)

/-- The `while True` retry loop around `computeDirection` in `solve`: try the
backward pass; on `ArithmeticError` increase the regularization, return a
saturation failure when `x_reg == regMax`, and otherwise retry without
recomputing the derivatives (the caller runs `calc` once beforehand, matching
`recalc=True` on the first attempt and `recalc=False` on retries).  The
Python loop is unbounded; `fuel` bounds it in the embedding and `none` marks
fuel exhaustion (the loop still running).  `some (.error s)` is the
saturation return, `some (.ok s)` a successful backward pass. -/
def bwRetry (p : ShootingProblem ndx nu) :
    ℕ → DDPState ndx nu → Option (Except (DDPState ndx nu) (DDPState ndx nu))
  | 0, _ => none
  | fuel + 1, s =>
      match backwardPass p s with
      | .ok s1 => some (.ok s1)
      | .error _ =>
          let s1 := increaseRegularization s
          if s1.x_reg = regMax then some (.error s1) else bwRetry p fuel s1

/-- The expected-improvement computation followed by the line search
(steps 2 and 3 of one `solve` iteration). -/
def lsPhase (p : ShootingProblem ndx nu) (th : Thresholds)
    (s : DDPState ndx nu) : DDPState ndx nu × ℚ × Bool :=
  let d := expectedImprovement p s
  lineSearch p th d.1 d.2 s

/-- One iteration of the outer loop of `solve` (loop counter `i`): the
direction phase (`calc` + backward pass with the regularization retry loop),
the line search, the regularization update, and the bookkeeping
`stepLength = a; iter = i; stop = stoppingCriteria()` followed by the
convergence check `wasFeasible and stop < th_stop`.  The result is `none`
when the retry loop ran out of fuel, otherwise the new state together with
`some converged` when `solve` returns here and `none` when the outer loop
continues. -/
def solveIterCore (p : ShootingProblem ndx nu) (th : Thresholds) (fuel i : ℕ)
    (s : DDPState ndx nu) : Option (DDPState ndx nu × Option Bool) :=
  match bwRetry p fuel (calcPass p s).1 with
  | none => none
  | some (.error s1) => some (s1, some false)
  | some (.ok s1) =>
      let r := lsPhase p th s1
      let q := regUpdatePhase r.2.1 r.1
      if q.2 then some (q.1, some false)
      else
        let s4 := { q.1 with stepLength := r.2.1, iter := i,
                             stop := stoppingCriteria p q.1 }
        if s4.wasFeasible = true ∧ s4.stop < th.th_stop then some (s4, some true)
        else some (s4, none)

/-- The outer `for i in range(maxiter)` loop of `solve`; falling off the end
returns the candidate with `converged = False`. -/
def solveLoop (p : ShootingProblem ndx nu) (th : Thresholds) (fuel : ℕ) :
    ℕ → ℕ → DDPState ndx nu → Option (DDPState ndx nu × Bool)
  | 0, _, s => some (s, false)
  | maxiter + 1, i, s =>
      match solveIterCore p th fuel i s with
      | none => none
      | some (s1, some b) => some (s1, b)
      | some (s1, none) => solveLoop p th fuel maxiter (i + 1) s1

/-- `DDPDerived.solve(init_xs, init_us, maxiter, isFeasible, regInit)`:
set the candidate, initialize the regularization
(`regInit if regInit is not None else regMin`) and `wasFeasible = False`,
and run the outer loop.  Every return of the source returns
`(self.xs, self.us, flag)`.  `none` only arises when the unbounded inner
retry loop exceeds `fuel`. -/
def solve (p : ShootingProblem ndx nu) (th : Thresholds) (fuel : ℕ)
    (init_xs : ℕ → QVec ndx) (init_us : ℕ → QVec nu) (maxiter : ℕ)
    (isFeasible : Bool) (regInit : Option ℚ) :
    Option ((ℕ → QVec ndx) × (ℕ → QVec nu) × Bool) :=
  (solveLoop p th fuel maxiter 0 (mkSolveState p init_xs init_us isFeasible regInit)).map
    (fun r => (r.1.xs, r.1.us, r.2))

/-! ### Concrete instances used by witnesses and counterexamples

All instances are one-dimensional (`ndx = nu = 1`) single-stage (`T = 1`)
problems on the flat manifold `StateVectorDerived`. -/

/-- The control value that the line search of the `exM1` scenario can only
reach with the smallest step size `2^-9`. -/
def uStarC : QVec 1 := fun _ => 1 - (1 / 2) ^ 9

/-- A cost magnitude beyond the `raiseIfNan` bound (`1e31 > 1e30`). -/
def bigCost : ℚ := 10 ^ 31

/-- A stage model whose cost blows past the `raiseIfNan` bound unless the
control equals `uStarC`: with candidate control `1` and feedforward gain `1`,
the forward pass fails for every step size except `2^-9`. -/
def exM1 : ActionModel 1 1 :=
  { stateDiff := StateVectorDerived.diff,
    xnext := fun x _ => x,
    cost := fun _ u => if u = uStarC then 0 else bigCost,
    Lx := fun _ _ => fun _ => 0,
    Lu := fun _ _ => fun _ => 2,
    Lxx := fun _ _ => 0,
    Luu := fun _ _ => 1,
    Lxu := fun _ _ => 0,
    Fx := fun _ _ => 0,
    Fu := fun _ _ => 0 }

/-- A terminal model with zero cost and derivatives. -/
def exTerminal : TerminalModel 1 :=
  { cost := fun _ => 0, Lx := fun _ => fun _ => 0, Lxx := fun _ => 0 }

/-- Single-stage shooting problem built on `exM1`. -/
def exP1 : ShootingProblem 1 1 :=
  { T := 1, initialState := fun _ => 0, runningModels := fun _ => exM1,
    terminalModel := exTerminal }

/-- Thresholds with the conventional values (`th_stop = 1e-9`,
`th_acceptStep = 0.1`). -/
def exTh1 : Thresholds := { th_stop := 1 / 10 ^ 9, th_acceptStep := 1 / 10 }

/-- The state at entry of `solve(xs=[0,0], us=[1], isFeasible=False,
regInit=1)` on `exP1`. -/
def exS1Init : DDPState 1 1 :=
  mkSolveState exP1 (fun _ => fun _ => 0) (fun _ => fun _ => 1) false (some 1)

/-- The state after the direction phase of the first iteration of that
`solve` call (the `calc` pass followed by the backward pass). -/
def exS1Dir : DDPState 1 1 :=
  match bwRetry exP1 1 (calcPass exP1 exS1Init).1 with
  | some (.ok s) => s
  | some (.error s) => s
  | none => (calcPass exP1 exS1Init).1

/-- A benign all-zero-cost stage model with dynamics `x' = x + u`. -/
def exM3 : ActionModel 1 1 :=
  { stateDiff := StateVectorDerived.diff,
    xnext := fun x u => x + u,
    cost := fun _ _ => 0,
    Lx := fun _ _ => fun _ => 0,
    Lu := fun _ _ => fun _ => 0,
    Lxx := fun _ _ => 0,
    Luu := fun _ _ => 1,
    Lxu := fun _ _ => 0,
    Fx := fun _ _ => 0,
    Fu := fun _ _ => 0 }

/-- Single-stage shooting problem built on `exM3`. -/
def exP3 : ShootingProblem 1 1 :=
  { T := 1, initialState := fun _ => 0, runningModels := fun _ => exM3,
    terminalModel := exTerminal }

/-- Thresholds with a large stopping tolerance, so that the zero-cost run on
`exP3` converges in its first iteration. -/
def exTh3 : Thresholds := { th_stop := 1, th_acceptStep := 1 / 10 }

/-- The dynamics rollout of `exP3` under the control `us = [1]`:
`xs = [0, 1]`. -/
def exXs3 : ℕ → QVec 1 := fun i => if i = 0 then (fun _ => 0) else fun _ => 1

/-- The constant control `us = [1]`. -/
def exUs3 : ℕ → QVec 1 := fun _ => fun _ => 1

/-- The state at entry of `solve(xs=[0,1], us=[1], isFeasible=True)` on
`exP3` (default regularization). -/
def exS3Init : DDPState 1 1 := mkSolveState exP3 exXs3 exUs3 true none

/-- The state after the direction phase of the first iteration of that
`solve` call. -/
def exS3Dir : DDPState 1 1 :=
  match bwRetry exP3 1 (calcPass exP3 exS3Init).1 with
  | some (.ok s) => s
  | some (.error s) => s
  | none => (calcPass exP3 exS3Init).1

/-- A solver state initialized with the out-of-range `regInit = 1e-11`
(reachable: it is the state `solve` builds before its first iteration). -/
def exSReg : DDPState 1 1 :=
  mkSolveState exP1 (fun _ => fun _ => 0) (fun _ => fun _ => 1) false
    (some (1 / 10 ^ 11))

/-- Whether an `Except` computation succeeded. -/
def exceptOk {ε α : Type _} : Except ε α → Bool
  | .ok _ => true
  | .error _ => false

/-! ## Claim C8 -/

/-- C8: for the flat state manifold `StateVectorDerived` and every pair of
states `x, y` of dimension `nx`: `integrate(x, diff(x, y))` equals `y`,
`diff(x, x)` equals `zero()`, and `integrate(x, diff(x, x))` equals `x`. -/
theorem C8_flat_manifold_inverses (nx : ℕ) (x y : QVec nx) :
    StateVectorDerived.integrate x (StateVectorDerived.diff x y) = y ∧
    StateVectorDerived.diff x x = StateVectorDerived.zero nx ∧
    StateVectorDerived.integrate x (StateVectorDerived.diff x x) = x := by
  refine ⟨?_, ?_, ?_⟩ <;> funext i <;>
    simp [StateVectorDerived.integrate, StateVectorDerived.diff,
      StateVectorDerived.zero]

/-! ## Claim C2 -/

/-- C2 as stated: every successful `computeDirection` call returns, as the
first component of its triple, a list of per-stage expected improvements —
entailing in particular that every entry is an actual number.  In the
embedding the `np.nan` placeholder is `none : Option ℚ`, so the claim
requires every entry of the first component to be `some` value. -/
def C2Stated : Prop :=
  ∀ (n m : ℕ) (p : ShootingProblem n m) (recalc : Bool) (s : DDPState n m),
    (computeDirection p recalc s).toOption.map
      (fun r => r.2.1.all (fun x => x.isSome)) ≠ some false

/-- C2 counterexample: on the concrete problem `exP1`, `computeDirection`
succeeds and returns `[nan, nan]` (i.e. `[none, none]`) as its first
component — not a list of per-stage expected-improvement values. -/
theorem C2_counterexample : ¬ C2Stated := by
  intro h
  exact h 1 1 exP1 true exS1Init (by decide)

/-- C2 (amended): for every call of `computeDirection(recalc)` that does not
raise, the returned triple consists of a list of `T + 1` NaN placeholders
(`none` in the embedding) — not per-stage expected improvements — followed by
the list of feedforward gains `k` and the list of value gradients `Vx`. -/
theorem C2_amended_direction_triple (p : ShootingProblem ndx nu)
    (recalc : Bool) (s : DDPState ndx nu)
    (h : exceptOk (computeDirection p recalc s) = true) :
    ∃ s2, computeDirection p recalc s =
      .ok (s2, List.replicate (p.T + 1) (none : Option ℚ), s2.k, s2.Vx) := by
  simp only [computeDirection] at h ⊢
  cases hb : backwardPass p (if recalc then (calcPass p s).1 else s) with
  | error e => rw [hb] at h; simp [exceptOk] at h
  | ok s2 => exact ⟨s2, rfl⟩

/-- C2 witness: the amended statement evaluated on the concrete run
`computeDirection(exP1, recalc=True)` from the `exS1Init` state. -/
theorem C2_witness :
    ∃ s2, computeDirection exP1 true exS1Init =
      .ok (s2, List.replicate (exP1.T + 1) (none : Option ℚ), s2.k, s2.Vx) :=
  C2_amended_direction_triple exP1 true exS1Init (by decide)

/-! ## Claim C10 -/

/-- C10 as stated: `solve` initializes `x_reg = u_reg = regInit` (or `regMin`
when absent); both regularization updates re-establish `u_reg = x_reg`; and
`x_reg` lies in `[regMin, regMax] = [1e-9, 1e9]` after any update. -/
def C10Stated : Prop :=
  (∀ (n m : ℕ) (p : ShootingProblem n m) (ixs : ℕ → QVec n) (ius : ℕ → QVec m)
      (feas : Bool) (regInit : Option ℚ),
    (mkSolveState p ixs ius feas regInit).x_reg = regInit.getD regMin ∧
    (mkSolveState p ixs ius feas regInit).u_reg =
      (mkSolveState p ixs ius feas regInit).x_reg) ∧
  (∀ (n m : ℕ) (s : DDPState n m),
    (increaseRegularization s).u_reg = (increaseRegularization s).x_reg ∧
    (decreaseRegularization s).u_reg = (decreaseRegularization s).x_reg) ∧
  (∀ (n m : ℕ) (s : DDPState n m),
    (regMin ≤ (increaseRegularization s).x_reg ∧
      (increaseRegularization s).x_reg ≤ regMax) ∧
    (regMin ≤ (decreaseRegularization s).x_reg ∧
      (decreaseRegularization s).x_reg ≤ regMax))

/-- C10 counterexample: starting `solve` with `regInit = 1e-11` (the state
`exSReg`), one `increaseRegularization` yields `x_reg = 1e-10`, which is
below `regMin = 1e-9`: the range invariant fails because
`increaseRegularization` has no floor. -/
theorem C10_counterexample : ¬ C10Stated := by
  intro h
  have h2 := ((h.2.2 1 1 exSReg).1).1
  have h3 : ¬ regMin ≤ (increaseRegularization exSReg).x_reg := by decide
  exact h3 h2

/-- C10 (amended): `solve` initializes `x_reg = u_reg = regInit` (or `regMin`
when absent); both updates re-establish `u_reg = x_reg`; and both updates
preserve membership of `x_reg` in `[regMin, regMax]` — so the range
invariant holds whenever the initial regularization is in range (in
particular for the default), but not for an arbitrary `regInit`. -/
theorem C10_amended_regularization :
    (∀ (n m : ℕ) (p : ShootingProblem n m) (ixs : ℕ → QVec n)
        (ius : ℕ → QVec m) (feas : Bool) (regInit : Option ℚ),
      (mkSolveState p ixs ius feas regInit).x_reg = regInit.getD regMin ∧
      (mkSolveState p ixs ius feas regInit).u_reg =
        (mkSolveState p ixs ius feas regInit).x_reg) ∧
    (∀ (n m : ℕ) (s : DDPState n m),
      (increaseRegularization s).u_reg = (increaseRegularization s).x_reg ∧
      (decreaseRegularization s).u_reg = (decreaseRegularization s).x_reg) ∧
    (∀ (n m : ℕ) (s : DDPState n m),
      regMin ≤ s.x_reg → s.x_reg ≤ regMax →
        (regMin ≤ (increaseRegularization s).x_reg ∧
          (increaseRegularization s).x_reg ≤ regMax) ∧
        (regMin ≤ (decreaseRegularization s).x_reg ∧
          (decreaseRegularization s).x_reg ≤ regMax)) := by
  have hmin : (0 : ℚ) < regMin := by norm_num [regMin]
  have hminmax : regMin ≤ regMax := by norm_num [regMin, regMax]
  have hfac : (1 : ℚ) ≤ regFactor := by norm_num [regFactor]
  refine ⟨fun n m p ixs ius feas regInit => ⟨rfl, rfl⟩,
    fun n m s => ⟨rfl, rfl⟩, fun n m s h1 h2 => ?_⟩
  have hx0 : (0 : ℚ) ≤ s.x_reg := le_trans hmin.le h1
  refine ⟨⟨?_, ?_⟩, ?_, ?_⟩
  · simp only [increaseRegularization]
    split
    · exact hminmax
    · exact le_trans h1 (le_mul_of_one_le_right hx0 hfac)
  · simp only [increaseRegularization]
    split
    · exact le_refl regMax
    · next hlt => exact le_of_not_lt hlt
  · simp only [decreaseRegularization]
    split
    · exact le_refl regMin
    · next hlt => exact le_of_not_lt hlt
  · simp only [decreaseRegularization]
    split
    · exact hminmax
    · exact le_trans (div_le_self hx0 hfac) h2

/-- C10 witness: at the freshly initialized `exS3Init` state (default
regularization `regMin`) the range hypotheses hold and both updates keep
`x_reg` inside `[regMin, regMax]`. -/
theorem C10_witness :
    (regMin ≤ exS3Init.x_reg ∧ exS3Init.x_reg ≤ regMax) ∧
    (regMin ≤ (increaseRegularization exS3Init).x_reg ∧
      (increaseRegularization exS3Init).x_reg ≤ regMax) ∧
    (regMin ≤ (decreaseRegularization exS3Init).x_reg ∧
      (decreaseRegularization exS3Init).x_reg ≤ regMax) :=
  ⟨⟨by decide, by decide⟩,
    (C10_amended_regularization.2.2 1 1 exS3Init (by decide) (by decide)).1,
    (C10_amended_regularization.2.2 1 1 exS3Init (by decide) (by decide)).2⟩

/-! ## Claim C9 -/

/-- `calc` leaves the candidate and feasibility flag unchanged. -/
lemma calcPass_isFeasible (p : ShootingProblem ndx nu) (s : DDPState ndx nu) :
    (calcPass p s).1.isFeasible = s.isFeasible := by
  simp only [calcPass]
  split <;> rfl

/-- `calc` does not change the gaps of a feasible candidate. -/
lemma calcPass_gaps_feasible (p : ShootingProblem ndx nu) (s : DDPState ndx nu)
    (h : s.isFeasible = true) : (calcPass p s).1.gaps = s.gaps := by
  simp [calcPass, h]

/-- The gap at stage 0 computed by `calc` for an infeasible candidate. -/
lemma calcPass_gaps_zero (p : ShootingProblem ndx nu) (s : DDPState ndx nu)
    (h : s.isFeasible = false) :
    (calcPass p s).1.gaps 0 =
      (p.runningModels 0).stateDiff (s.xs 0) p.initialState := by
  simp [calcPass, h]

/-- The gap at stage `i + 1` computed by `calc` for an infeasible
candidate. -/
lemma calcPass_gaps_succ (p : ShootingProblem ndx nu) (s : DDPState ndx nu)
    (h : s.isFeasible = false) (i : ℕ) (hi : i < p.T) :
    (calcPass p s).1.gaps (i + 1) =
      (p.runningModels i).stateDiff (s.xs (i + 1))
        ((p.runningModels i).xnext (s.xs i) (s.us i)) := by
  simp only [calcPass, problemCalcDiff, h]
  have h1 : ¬ (i + 1 = 0) := by omega
  have h2 : i + 1 ≤ p.T := by omega
  simp [h1, h2]

/-- C9: after the solver's `calc` pass on an infeasible candidate,
`gaps[0] = difference(xs[0], initialState)` and
`gaps[i+1] = difference(xs[i+1], datas[i].xnext)` for every stage `i`; and
for a flat-manifold candidate that is exactly the dynamics rollout from the
initial state, every gap is zero after the first `calc` (from the freshly
allocated solver state), whether or not the feasibility flag was set. -/
theorem C9_gaps_after_calc :
    (∀ (p : ShootingProblem ndx nu) (s : DDPState ndx nu),
      s.isFeasible = false →
        (calcPass p s).1.gaps 0 =
          (p.runningModels 0).stateDiff (s.xs 0) p.initialState ∧
        ∀ i < p.T,
          (calcPass p s).1.gaps (i + 1) =
            (p.runningModels i).stateDiff (s.xs (i + 1))
              ((p.runningModels i).xnext (s.xs i) (s.us i))) ∧
    (∀ (p : ShootingProblem ndx nu) (ixs : ℕ → QVec ndx) (ius : ℕ → QVec nu)
        (feas : Bool) (regInit : Option ℚ),
      (∀ i, (p.runningModels i).stateDiff = StateVectorDerived.diff) →
      ixs 0 = p.initialState →
      (∀ i < p.T, ixs (i + 1) = (p.runningModels i).xnext (ixs i) (ius i)) →
      ∀ i ≤ p.T,
        (calcPass p (mkSolveState p ixs ius feas regInit)).1.gaps i =
          StateVectorDerived.zero ndx) := by
  constructor
  · intro p s hfeas
    exact ⟨calcPass_gaps_zero p s hfeas,
      fun i hi => calcPass_gaps_succ p s hfeas i hi⟩
  · intro p ixs ius feas regInit hflat h0 hroll i hi
    cases feas with
    | true =>
        rw [calcPass_gaps_feasible p (mkSolveState p ixs ius true regInit) rfl]
        rfl
    | false =>
        have hf : (mkSolveState p ixs ius false regInit).isFeasible = false := rfl
        cases i with
        | zero =>
            rw [calcPass_gaps_zero p _ hf, hflat 0]
            show StateVectorDerived.diff (ixs 0) p.initialState = _
            rw [h0]
            funext j
            simp [StateVectorDerived.diff, StateVectorDerived.zero]
        | succ j =>
            have hj : j < p.T := by omega
            rw [calcPass_gaps_succ p _ hf j hj, hflat j]
            show StateVectorDerived.diff (ixs (j + 1))
              ((p.runningModels j).xnext (ixs j) (ius j)) = _
            rw [← hroll j hj]
            funext l
            simp [StateVectorDerived.diff, StateVectorDerived.zero]

/-- C9 witness: on the concrete rollout problem `exP3` with candidate
`xs = [0, 1]`, `us = [1]` and `isFeasible = False`, the gap at stage 1 is
exactly zero after the first `calc`. -/
theorem C9_witness :
    (calcPass exP3 (mkSolveState exP3 exXs3 exUs3 false none)).1.gaps 1 =
      StateVectorDerived.zero 1 :=
  C9_gaps_after_calc.2 exP3 exXs3 exUs3 false none (fun _ => rfl) (by decide)
    (by decide) 1 (by decide)

/-! ## Claim C3 -/

/-- A `solve` iteration that returns `converged = True` does so in the
convergence branch: its final state has `wasFeasible` set, `stop` below
`th_stop`, and `stop` equal to `stoppingCriteria`. -/
lemma solveIterCore_true (p : ShootingProblem ndx nu) (th : Thresholds)
    (fuel i : ℕ) (s s1 : DDPState ndx nu)
    (h : solveIterCore p th fuel i s = some (s1, some true)) :
    s1.wasFeasible = true ∧ s1.stop < th.th_stop ∧
      s1.stop = stoppingCriteria p s1 := by
  simp only [solveIterCore] at h
  rcases hbw : bwRetry p fuel (calcPass p s).1 with _ | e
  · rw [hbw] at h; simp at h
  · rw [hbw] at h
    rcases e with s2 | s2
    · simp at h
    · simp only at h
      split at h
      · simp at h
      · split at h
        · next hc =>
            simp only [Option.some.injEq, Prod.mk.injEq] at h
            obtain ⟨h1, -⟩ := h
            subst h1
            exact ⟨hc.1, hc.2, rfl⟩
        · simp at h

/-- C3: `solve` declares success only when the feasibility flag recorded
from the previous accepted step (`wasFeasible`) is true and the stopping
criterion is below `th_stop`; and the stored stopping-criterion value is
exactly `Σ_t ‖Qu_t‖²`, the sum over running stages of the squared norm of
`Qu`. -/
theorem C3_success_requires_feasibility_and_tolerance
    (p : ShootingProblem ndx nu) (th : Thresholds) (fuel maxiter i : ℕ)
    (s : DDPState ndx nu)
    (h : (solveLoop p th fuel maxiter i s).map (fun r => r.2) = some true) :
    ∃ s1, solveLoop p th fuel maxiter i s = some (s1, true) ∧
      s1.wasFeasible = true ∧ s1.stop < th.th_stop ∧
      s1.stop = ∑ t ∈ Finset.range p.T, Matrix.dotProduct (s1.Qu t) (s1.Qu t) := by
  induction maxiter generalizing i s with
  | zero => simp [solveLoop] at h
  | succ m ih =>
      rw [solveLoop] at h ⊢
      rcases hit : solveIterCore p th fuel i s with _ | ⟨s1, ob⟩
      · rw [hit] at h; simp at h
      · rw [hit] at h
        rcases ob with _ | b
        · exact ih (i + 1) s1 h
        · simp only [Option.map_some] at h
          obtain rfl : b = true := by simpa using h
          obtain ⟨h1, h2, h3⟩ := solveIterCore_true p th fuel i s s1 hit
          exact ⟨s1, rfl, h1, h2, h3⟩

/-- C3 witness: the concrete zero-cost run on `exP3` (feasible rollout
candidate, one iteration) returns `converged = True`, and the success
conditions hold at its final state. -/
theorem C3_witness :
    ∃ s1, solveLoop exP3 exTh3 1 1 0 exS3Init = some (s1, true) ∧
      s1.wasFeasible = true ∧ s1.stop < exTh3.th_stop ∧
      s1.stop = ∑ t ∈ Finset.range exP3.T,
        Matrix.dotProduct (s1.Qu t) (s1.Qu t) :=
  C3_success_requires_feasibility_and_tolerance exP3 exTh3 1 1 0 exS3Init
    (by decide)

/-! ## Claim C4 -/

section BackwardPassSpec

variable {s s1 s2 : DDPState ndx nu} {t : ℕ}

lemma bwQxx_congr (h1 : s2.datas = s1.datas) (h2 : s2.Vxx (t + 1) = s1.Vxx (t + 1)) :
    bwQxx s2 t = bwQxx s1 t := by unfold bwQxx; rw [h1, h2]

lemma bwQxu_congr (h1 : s2.datas = s1.datas) (h2 : s2.Vxx (t + 1) = s1.Vxx (t + 1)) :
    bwQxu s2 t = bwQxu s1 t := by unfold bwQxu; rw [h1, h2]

lemma bwQuu_congr (h1 : s2.datas = s1.datas) (h2 : s2.Vxx (t + 1) = s1.Vxx (t + 1))
    (h3 : s2.u_reg = s1.u_reg) : bwQuu s2 t = bwQuu s1 t := by
  unfold bwQuu; rw [h1, h2, h3]

lemma bwQx_congr (h1 : s2.datas = s1.datas) (h2 : s2.Vxx (t + 1) = s1.Vxx (t + 1))
    (h3 : s2.Vx (t + 1) = s1.Vx (t + 1)) (h4 : s2.gaps (t + 1) = s1.gaps (t + 1))
    (h5 : s2.isFeasible = s1.isFeasible) : bwQx s2 t = bwQx s1 t := by
  unfold bwQx bwRelin; rw [h1, h2, h3, h4, h5]

lemma bwQu_congr (h1 : s2.datas = s1.datas) (h2 : s2.Vxx (t + 1) = s1.Vxx (t + 1))
    (h3 : s2.Vx (t + 1) = s1.Vx (t + 1)) (h4 : s2.gaps (t + 1) = s1.gaps (t + 1))
    (h5 : s2.isFeasible = s1.isFeasible) : bwQu s2 t = bwQu s1 t := by
  unfold bwQu bwRelin; rw [h1, h2, h3, h4, h5]

lemma bwVx_congr (h1 : s2.u_reg = s1.u_reg) (h2 : s2.Qx t = s1.Qx t)
    (h3 : s2.Qu t = s1.Qu t) (h4 : s2.K t = s1.K t) (h5 : s2.k t = s1.k t)
    (h6 : s2.Quu t = s1.Quu t) : bwVx s2 t = bwVx s1 t := by
  unfold bwVx; rw [h1, h2, h3, h4, h5, h6]

lemma bwVxx_congr (h1 : s2.x_reg = s1.x_reg) (h2 : s2.Qxx t = s1.Qxx t)
    (h3 : s2.Qxu t = s1.Qxu t) (h4 : s2.K t = s1.K t) :
    bwVxx s2 t = bwVxx s1 t := by
  unfold bwVxx; rw [h1, h2, h3, h4]

/-- `computeGains` only writes `K[t]` and `k[t]` (on success). -/
lemma computeGains_ok_fields (h : computeGains s t = .ok s2) :
    (∀ u, u ≠ t → s2.K u = s.K u ∧ s2.k u = s.k u) ∧
    s2.Qxx = s.Qxx ∧ s2.Qxu = s.Qxu ∧ s2.Quu = s.Quu ∧ s2.Qx = s.Qx ∧
    s2.Qu = s.Qu ∧ s2.Vx = s.Vx ∧ s2.Vxx = s.Vxx ∧ s2.datas = s.datas ∧
    s2.gaps = s.gaps ∧ s2.x_reg = s.x_reg ∧ s2.u_reg = s.u_reg ∧
    s2.isFeasible = s.isFeasible ∧ s2.xs = s.xs ∧ s2.us = s.us := by
  simp only [computeGains] at h
  split at h
  · split at h
    · simp only [Except.ok.injEq] at h
      subst h
      refine ⟨fun u hu => ⟨Function.update_noteq hu _ _,
        Function.update_noteq hu _ _⟩, ?_⟩
      repeat' constructor
    · cases h
  · simp only [Except.ok.injEq] at h
    subst h
    exact ⟨fun u hu => ⟨rfl, rfl⟩, rfl, rfl, rfl, rfl, rfl, rfl, rfl, rfl,
      rfl, rfl, rfl, rfl, rfl, rfl⟩

/-- A successful backward step at stage `t` leaves the problem data,
regularization, candidate, and every buffer at stages `≠ t` unchanged, and
at stage `t` the written buffers satisfy the backward-recursion formulas
(expressed over the resulting state). -/
lemma bwStep_ok_spec (h : bwStep s t = .ok s1) :
    (s1.datas = s.datas ∧ s1.gaps = s.gaps ∧ s1.x_reg = s.x_reg ∧
     s1.u_reg = s.u_reg ∧ s1.isFeasible = s.isFeasible ∧ s1.xs = s.xs ∧
     s1.us = s.us) ∧
    (∀ u, u ≠ t →
      s1.Qxx u = s.Qxx u ∧ s1.Qxu u = s.Qxu u ∧ s1.Quu u = s.Quu u ∧
      s1.Qx u = s.Qx u ∧ s1.Qu u = s.Qu u ∧ s1.K u = s.K u ∧ s1.k u = s.k u ∧
      s1.Vx u = s.Vx u ∧ s1.Vxx u = s.Vxx u) ∧
    (s1.Qxx t = bwQxx s1 t ∧ s1.Qxu t = bwQxu s1 t ∧ s1.Quu t = bwQuu s1 t ∧
     s1.Qx t = bwQx s1 t ∧ s1.Qu t = bwQu s1 t ∧ s1.Vx t = bwVx s1 t ∧
     s1.Vxx t = bwVxx s1 t) := by
  simp only [bwStep] at h
  rcases hcg : computeGains (bwWriteQ s t) t with e | s2
  · rw [hcg] at h; cases h
  · rw [hcg] at h
    have h2 : (if matBad (bwVxx s2 t) || vecBad (bwVx s2 t) then
        (Except.error () : Except Unit (DDPState ndx nu))
      else .ok (bwWriteV s2 t)) = .ok s1 := h
    clear h
    split at h2
    · cases h2
    · simp only [Except.ok.injEq] at h2
      subst h2
      obtain ⟨hKk, hQxx, hQxu, hQuu, hQx, hQu, hVx, hVxx, hdatas, hgaps,
        hxreg, hureg, hfeas, hxs, hus⟩ := computeGains_ok_fields hcg
      -- the fields of `bwWriteV s2 t` in terms of `s2`, then of `bwWriteQ s t`
      have e1 : (bwWriteV s2 t).datas = s.datas := hdatas
      have e2 : (bwWriteV s2 t).gaps = s.gaps := hgaps
      have e3 : (bwWriteV s2 t).x_reg = s.x_reg := hxreg
      have e4 : (bwWriteV s2 t).u_reg = s.u_reg := hureg
      have e5 : (bwWriteV s2 t).isFeasible = s.isFeasible := hfeas
      have eVx1 : (bwWriteV s2 t).Vxx (t + 1) = s.Vxx (t + 1) := by
        show Function.update s2.Vxx t (bwVxx s2 t) (t + 1) = s.Vxx (t + 1)
        rw [Function.update_noteq (by omega), hVxx]
        exact rfl
      have eV1 : (bwWriteV s2 t).Vx (t + 1) = s.Vx (t + 1) := by
        show Function.update s2.Vx t (bwVx s2 t) (t + 1) = s.Vx (t + 1)
        rw [Function.update_noteq (by omega), hVx]
        exact rfl
      refine ⟨⟨e1, e2, e3, e4, e5, hxs, hus⟩, ?_, ?_⟩
      · intro u hu
        refine ⟨?_, ?_, ?_, ?_, ?_, ?_, ?_, ?_, ?_⟩
        · show s2.Qxx u = s.Qxx u
          rw [hQxx]; exact Function.update_noteq hu _ _
        · show s2.Qxu u = s.Qxu u
          rw [hQxu]; exact Function.update_noteq hu _ _
        · show s2.Quu u = s.Quu u
          rw [hQuu]; exact Function.update_noteq hu _ _
        · show s2.Qx u = s.Qx u
          rw [hQx]; exact Function.update_noteq hu _ _
        · show s2.Qu u = s.Qu u
          rw [hQu]; exact Function.update_noteq hu _ _
        · exact (hKk u hu).1
        · exact (hKk u hu).2
        · show Function.update s2.Vx t (bwVx s2 t) u = s.Vx u
          rw [Function.update_noteq hu, hVx]
          exact rfl
        · show Function.update s2.Vxx t (bwVxx s2 t) u = s.Vxx u
          rw [Function.update_noteq hu, hVxx]
          exact rfl
      · -- the formulas at stage t, over the final state `bwWriteV s2 t`
        have cQxx : bwQxx (bwWriteV s2 t) t = bwQxx s t :=
          bwQxx_congr e1 eVx1
        have cQxu : bwQxu (bwWriteV s2 t) t = bwQxu s t :=
          bwQxu_congr e1 eVx1
        have cQuu : bwQuu (bwWriteV s2 t) t = bwQuu s t :=
          bwQuu_congr e1 eVx1 e4
        have cQx : bwQx (bwWriteV s2 t) t = bwQx s t :=
          bwQx_congr e1 eVx1 eV1 (congrFun e2 _) e5
        have cQu : bwQu (bwWriteV s2 t) t = bwQu s t :=
          bwQu_congr e1 eVx1 eV1 (congrFun e2 _) e5
        have cVx : bwVx (bwWriteV s2 t) t = bwVx s2 t :=
          bwVx_congr rfl rfl rfl rfl rfl rfl
        have cVxx : bwVxx (bwWriteV s2 t) t = bwVxx s2 t :=
          bwVxx_congr rfl rfl rfl rfl
        refine ⟨?_, ?_, ?_, ?_, ?_, ?_, ?_⟩
        · show s2.Qxx t = bwQxx (bwWriteV s2 t) t
          rw [hQxx, cQxx]; exact Function.update_same _ _ _
        · show s2.Qxu t = bwQxu (bwWriteV s2 t) t
          rw [hQxu, cQxu]; exact Function.update_same _ _ _
        · show s2.Quu t = bwQuu (bwWriteV s2 t) t
          rw [hQuu, cQuu]; exact Function.update_same _ _ _
        · show s2.Qx t = bwQx (bwWriteV s2 t) t
          rw [hQx, cQx]; exact Function.update_same _ _ _
        · show s2.Qu t = bwQu (bwWriteV s2 t) t
          rw [hQu, cQu]; exact Function.update_same _ _ _
        · show Function.update s2.Vx t (bwVx s2 t) t = bwVx (bwWriteV s2 t) t
          rw [Function.update_same, cVx]
        · show Function.update s2.Vxx t (bwVxx s2 t) t = bwVxx (bwWriteV s2 t) t
          rw [Function.update_same, cVxx]

/-- The backward loop over a strictly decreasing index list: the problem
data stay fixed, untouched buffers stay fixed, and every processed stage
satisfies the backward-recursion formulas in the final state. -/
lemma backwardLoop_spec :
    ∀ (l : List ℕ) (s s' : DDPState ndx nu),
      l.Pairwise (fun a b => b < a) → backwardLoop s l = .ok s' →
      (s'.datas = s.datas ∧ s'.gaps = s.gaps ∧ s'.x_reg = s.x_reg ∧
       s'.u_reg = s.u_reg ∧ s'.isFeasible = s.isFeasible ∧ s'.xs = s.xs ∧
       s'.us = s.us) ∧
      (∀ u, u ∉ l →
        s'.Qxx u = s.Qxx u ∧ s'.Qxu u = s.Qxu u ∧ s'.Quu u = s.Quu u ∧
        s'.Qx u = s.Qx u ∧ s'.Qu u = s.Qu u ∧ s'.K u = s.K u ∧
        s'.k u = s.k u ∧ s'.Vx u = s.Vx u ∧ s'.Vxx u = s.Vxx u) ∧
      (∀ t ∈ l,
        s'.Qxx t = bwQxx s' t ∧ s'.Qxu t = bwQxu s' t ∧
        s'.Quu t = bwQuu s' t ∧ s'.Qx t = bwQx s' t ∧ s'.Qu t = bwQu s' t ∧
        s'.Vx t = bwVx s' t ∧ s'.Vxx t = bwVxx s' t) := by
  intro l
  induction l with
  | nil =>
      intro s s' _ h
      simp only [backwardLoop, Except.ok.injEq] at h
      subst h
      exact ⟨⟨rfl, rfl, rfl, rfl, rfl, rfl, rfl⟩,
        fun u _ => ⟨rfl, rfl, rfl, rfl, rfl, rfl, rfl, rfl, rfl⟩,
        fun t ht => absurd ht (List.not_mem_nil t)⟩
  | cons t ts ih =>
      intro s s' hp h
      rw [List.pairwise_cons] at hp
      obtain ⟨hlt, hp'⟩ := hp
      simp only [backwardLoop] at h
      rcases hbs : bwStep s t with e | s1
      · rw [hbs] at h; cases h
      · rw [hbs] at h
        obtain ⟨⟨f1, f2, f3, f4, f5, f6, f7⟩, hframe, hfml⟩ :=
          bwStep_ok_spec hbs
        obtain ⟨⟨g1, g2, g3, g4, g5, g6, g7⟩, gframe, gfml⟩ := ih s1 s' hp' h
        have htts : t ∉ ts := fun hm => lt_irrefl t (hlt t hm)
        have ht1ts : t + 1 ∉ ts := fun hm => by
          have := hlt (t + 1) hm; omega
        refine ⟨⟨g1.trans f1, g2.trans f2, g3.trans f3, g4.trans f4,
          g5.trans f5, g6.trans f6, g7.trans f7⟩, ?_, ?_⟩
        · intro u hu
          have hut : u ≠ t := fun he => hu (he ▸ List.mem_cons_self t ts)
          have huts : u ∉ ts := fun hm => hu (List.mem_cons_of_mem t hm)
          obtain ⟨a1, a2, a3, a4, a5, a6, a7, a8, a9⟩ := gframe u huts
          obtain ⟨b1, b2, b3, b4, b5, b6, b7, b8, b9⟩ := hframe u hut
          exact ⟨a1.trans b1, a2.trans b2, a3.trans b3, a4.trans b4,
            a5.trans b5, a6.trans b6, a7.trans b7, a8.trans b8, a9.trans b9⟩
        · intro u hu
          rcases List.mem_cons.mp hu with rfl | hmem
          · -- the head stage: transport the step formulas to the final state
            obtain ⟨a1, a2, a3, a4, a5, a6, a7, a8, a9⟩ := gframe u htts
            obtain ⟨a1', a2', a3', a4', a5', a6', a7', a8', a9'⟩ :=
              gframe (u + 1) ht1ts
            obtain ⟨m1, m2, m3, m4, m5, m6, m7⟩ := hfml
            refine ⟨?_, ?_, ?_, ?_, ?_, ?_, ?_⟩
            · rw [a1, m1]; exact (bwQxx_congr g1 a9').symm
            · rw [a2, m2]; exact (bwQxu_congr g1 a9').symm
            · rw [a3, m3]; exact (bwQuu_congr g1 a9' g4).symm
            · rw [a4, m4]; exact (bwQx_congr g1 a9' a8' (congrFun g2 _) g5).symm
            · rw [a5, m5]; exact (bwQu_congr g1 a9' a8' (congrFun g2 _) g5).symm
            · rw [a8, m6]; exact (bwVx_congr g4 a4 a5 a6 a7 a3).symm
            · rw [a9, m7]; exact (bwVxx_congr g3 a1 a2 a6).symm
          · exact gfml u hmem

end BackwardPassSpec

/-- C4: for every stage `t` of a successful backward pass, the computed
buffers satisfy `Qxx = Lxx + Fx^T Vxx' Fx`, `Qxu = Lxu + Fx^T Vxx' Fu`,
`Quu = Luu + Fu^T Vxx' Fu` (plus `u_reg` on the diagonal when nonzero),
`Qx = Lx + Fx^T Vx'` and `Qu = Lu + Fu^T Vx'` (plus the gap corrections
`Fx^T Vxx' gap'` and `Fu^T Vxx' gap'` when the candidate is infeasible);
`Vx = Qx − K^T Qu` when `u_reg = 0` and
`Vx = Qx − 2 K^T Qu + K^T Quu k` otherwise; and
`Vxx = 0.5 ((Qxx − Qxu K) + (Qxx − Qxu K)^T)`, with `x_reg` added to its
diagonal when nonzero (primes denote stage `t + 1`). -/
theorem C4_backward_pass_formulas (p : ShootingProblem ndx nu)
    (s : DDPState ndx nu) (h : exceptOk (backwardPass p s) = true) :
    ∃ s', backwardPass p s = .ok s' ∧ ∀ t < p.T,
      s'.Qxx t = (s'.datas t).Lxx +
        (s'.datas t).Fxᵀ * s'.Vxx (t + 1) * (s'.datas t).Fx ∧
      s'.Qxu t = (s'.datas t).Lxu +
        (s'.datas t).Fxᵀ * s'.Vxx (t + 1) * (s'.datas t).Fu ∧
      (s'.u_reg = 0 → s'.Quu t = (s'.datas t).Luu +
        (s'.datas t).Fuᵀ * s'.Vxx (t + 1) * (s'.datas t).Fu) ∧
      (s'.u_reg ≠ 0 → s'.Quu t = (s'.datas t).Luu +
        (s'.datas t).Fuᵀ * s'.Vxx (t + 1) * (s'.datas t).Fu +
        s'.u_reg • (1 : QMat nu nu)) ∧
      (s'.isFeasible = true →
        s'.Qx t = (s'.datas t).Lx + (s'.datas t).Fxᵀ.mulVec (s'.Vx (t + 1)) ∧
        s'.Qu t = (s'.datas t).Lu + (s'.datas t).Fuᵀ.mulVec (s'.Vx (t + 1))) ∧
      (s'.isFeasible = false →
        s'.Qx t = (s'.datas t).Lx + (s'.datas t).Fxᵀ.mulVec (s'.Vx (t + 1)) +
          (s'.datas t).Fxᵀ.mulVec ((s'.Vxx (t + 1)).mulVec (s'.gaps (t + 1))) ∧
        s'.Qu t = (s'.datas t).Lu + (s'.datas t).Fuᵀ.mulVec (s'.Vx (t + 1)) +
          (s'.datas t).Fuᵀ.mulVec ((s'.Vxx (t + 1)).mulVec (s'.gaps (t + 1)))) ∧
      (s'.u_reg = 0 → s'.Vx t = s'.Qx t - (s'.K t)ᵀ.mulVec (s'.Qu t)) ∧
      (s'.u_reg ≠ 0 → s'.Vx t = s'.Qx t -
        (2 : ℚ) • ((s'.K t)ᵀ.mulVec (s'.Qu t)) +
        (s'.K t)ᵀ.mulVec ((s'.Quu t).mulVec (s'.k t))) ∧
      (s'.x_reg = 0 → s'.Vxx t = (1 / 2 : ℚ) •
        ((s'.Qxx t - s'.Qxu t * s'.K t) + (s'.Qxx t - s'.Qxu t * s'.K t)ᵀ)) ∧
      (s'.x_reg ≠ 0 → s'.Vxx t = (1 / 2 : ℚ) •
        ((s'.Qxx t - s'.Qxu t * s'.K t) + (s'.Qxx t - s'.Qxu t * s'.K t)ᵀ) +
        s'.x_reg • (1 : QMat ndx ndx)) := by
  rcases hb : backwardPass p s with e | s'
  · rw [hb] at h; simp [exceptOk] at h
  · refine ⟨s', rfl, ?_⟩
    intro t ht
    simp only [backwardPass] at hb
    have hpw : ((List.range p.T).reverse).Pairwise (fun a b => b < a) :=
      List.pairwise_reverse.mpr (List.pairwise_lt_range p.T)
    obtain ⟨-, -, hfml⟩ := backwardLoop_spec _ _ _ hpw hb
    have hmem : t ∈ (List.range p.T).reverse := by
      rw [List.mem_reverse, List.mem_range]; exact ht
    obtain ⟨m1, m2, m3, m4, m5, m6, m7⟩ := hfml t hmem
    refine ⟨m1, m2, ?_, ?_, ?_, ?_, ?_, ?_, ?_, ?_⟩
    · intro h0; rw [m3]; simp [bwQuu, h0]
    · intro h0; rw [m3]; simp [bwQuu, h0]
    · intro h0; rw [m4, m5]; constructor <;> simp [bwQx, bwQu, h0]
    · intro h0; rw [m4, m5]; constructor <;> simp [bwQx, bwQu, bwRelin, h0]
    · intro h0; rw [m6]; simp [bwVx, h0]
    · intro h0; rw [m6]; simp [bwVx, h0]
    · intro h0; rw [m7]; simp [bwVxx, h0]
    · intro h0; rw [m7]; simp [bwVxx, h0]

/-- The solver state of the `exP1` scenario right after its first `calc`. -/
def exS1Calc : DDPState 1 1 := (calcPass exP1 exS1Init).1

/-- C4 witness: the backward pass succeeds on the concrete `exP1` run and
the stage-0 formulas hold there. -/
theorem C4_witness :
    ∃ s', backwardPass exP1 exS1Calc = .ok s' ∧ ∀ t < exP1.T,
      s'.Qxx t = (s'.datas t).Lxx +
        (s'.datas t).Fxᵀ * s'.Vxx (t + 1) * (s'.datas t).Fx ∧
      s'.Qxu t = (s'.datas t).Lxu +
        (s'.datas t).Fxᵀ * s'.Vxx (t + 1) * (s'.datas t).Fu ∧
      (s'.u_reg = 0 → s'.Quu t = (s'.datas t).Luu +
        (s'.datas t).Fuᵀ * s'.Vxx (t + 1) * (s'.datas t).Fu) ∧
      (s'.u_reg ≠ 0 → s'.Quu t = (s'.datas t).Luu +
        (s'.datas t).Fuᵀ * s'.Vxx (t + 1) * (s'.datas t).Fu +
        s'.u_reg • (1 : QMat 1 1)) ∧
      (s'.isFeasible = true →
        s'.Qx t = (s'.datas t).Lx + (s'.datas t).Fxᵀ.mulVec (s'.Vx (t + 1)) ∧
        s'.Qu t = (s'.datas t).Lu + (s'.datas t).Fuᵀ.mulVec (s'.Vx (t + 1))) ∧
      (s'.isFeasible = false →
        s'.Qx t = (s'.datas t).Lx + (s'.datas t).Fxᵀ.mulVec (s'.Vx (t + 1)) +
          (s'.datas t).Fxᵀ.mulVec ((s'.Vxx (t + 1)).mulVec (s'.gaps (t + 1))) ∧
        s'.Qu t = (s'.datas t).Lu + (s'.datas t).Fuᵀ.mulVec (s'.Vx (t + 1)) +
          (s'.datas t).Fuᵀ.mulVec ((s'.Vxx (t + 1)).mulVec (s'.gaps (t + 1)))) ∧
      (s'.u_reg = 0 → s'.Vx t = s'.Qx t - (s'.K t)ᵀ.mulVec (s'.Qu t)) ∧
      (s'.u_reg ≠ 0 → s'.Vx t = s'.Qx t -
        (2 : ℚ) • ((s'.K t)ᵀ.mulVec (s'.Qu t)) +
        (s'.K t)ᵀ.mulVec ((s'.Quu t).mulVec (s'.k t))) ∧
      (s'.x_reg = 0 → s'.Vxx t = (1 / 2 : ℚ) •
        ((s'.Qxx t - s'.Qxu t * s'.K t) + (s'.Qxx t - s'.Qxu t * s'.K t)ᵀ)) ∧
      (s'.x_reg ≠ 0 → s'.Vxx t = (1 / 2 : ℚ) •
        ((s'.Qxx t - s'.Qxu t * s'.K t) + (s'.Qxx t - s'.Qxu t * s'.K t)ᵀ) +
        s'.x_reg • (1 : QMat 1 1)) :=
  C4_backward_pass_formulas exP1 exS1Calc (by decide)

/-! ## Claim C6 -/

/-- Unfolding lemma: the forward rollout over an empty index list. -/
lemma forwardLoop_nil (p : ShootingProblem ndx nu) (s : DDPState ndx nu)
    (a : ℚ) (acc : (ℕ → QVec ndx) × (ℕ → QVec nu) × ℚ) :
    forwardLoop p s a acc [] = .ok acc := rfl

/-- Unfolding lemma: one step of the forward rollout. -/
lemma forwardLoop_cons (p : ShootingProblem ndx nu) (s : DDPState ndx nu)
    (a : ℚ) (acc : (ℕ → QVec ndx) × (ℕ → QVec nu) × ℚ) (t : ℕ)
    (ts : List ℕ) :
    forwardLoop p s a acc (t :: ts) =
      match fwStep p s a acc t with
      | .error e => .error e
      | .ok acc1 => forwardLoop p s a acc1 ts := rfl

/-- The forward rollout over consecutive stages `t, t+1, .., t+n-1`: entries
outside the written window keep their values, and the written entries satisfy
the rollout equations; the accumulated cost is the sum of the stage costs. -/
lemma forwardLoop_spec (p : ShootingProblem ndx nu) (s : DDPState ndx nu)
    (α : ℚ) :
    ∀ (n t : ℕ) (xtry : ℕ → QVec ndx) (utry : ℕ → QVec nu) (ctry : ℚ)
      (res : (ℕ → QVec ndx) × (ℕ → QVec nu) × ℚ),
      forwardLoop p s α (xtry, utry, ctry) (List.range' t n) = .ok res →
      (∀ j, j ≤ t → res.1 j = xtry j) ∧
      (∀ j, t + n < j → res.1 j = xtry j) ∧
      (∀ j, j < t → res.2.1 j = utry j) ∧
      (∀ j, t + n ≤ j → res.2.1 j = utry j) ∧
      (∀ j, t ≤ j → j < t + n →
        res.2.1 j = s.us j - α • s.k j -
          (s.K j).mulVec ((p.runningModels j).stateDiff (s.xs j) (res.1 j)) ∧
        res.1 (j + 1) = (p.runningModels j).xnext (res.1 j) (res.2.1 j)) ∧
      res.2.2 = ctry + ∑ j ∈ Finset.Ico t (t + n),
        (p.runningModels j).cost (res.1 j) (res.2.1 j) := by
  intro n
  induction n with
  | zero =>
      intro t xtry utry ctry res h
      rw [List.range'_zero, forwardLoop_nil] at h
      simp only [Except.ok.injEq] at h
      subst h
      refine ⟨fun j _ => rfl, fun j _ => rfl, fun j _ => rfl, fun j _ => rfl,
        fun j h1 h2 => absurd h2 (by omega), ?_⟩
      simp
  | succ n ihn =>
      intro t xtry utry ctry res h
      rw [List.range'_succ, forwardLoop_cons] at h
      rcases hstep : fwStep p s α (xtry, utry, ctry) t with e | acc1
      · rw [hstep] at h; cases h
      · rw [hstep] at h
        -- unpack the step
        have hacc : acc1 =
            (Function.update xtry (t + 1)
              ((p.runningModels t).xnext (xtry t)
                (s.us t - α • s.k t -
                  (s.K t).mulVec ((p.runningModels t).stateDiff (s.xs t) (xtry t)))),
             Function.update utry t
              (s.us t - α • s.k t -
                (s.K t).mulVec ((p.runningModels t).stateDiff (s.xs t) (xtry t))),
             ctry + (p.runningModels t).cost (xtry t)
              (s.us t - α • s.k t -
                (s.K t).mulVec ((p.runningModels t).stateDiff (s.xs t) (xtry t)))) := by
          simp only [fwStep] at hstep
          split at hstep
          · cases hstep
          · split at hstep
            · cases hstep
            · simp only [Except.ok.injEq] at hstep
              exact hstep.symm
        obtain ⟨i1, i2, i3, i4, i5, i6⟩ := ihn (t + 1) acc1.1 acc1.2.1 acc1.2.2
          res h
        have hx_at : ∀ j, j ≤ t → res.1 j = xtry j := by
          intro j hj
          rw [i1 j (by omega), hacc]
          exact Function.update_noteq (by omega) _ _
        have hxt : res.1 t = xtry t := hx_at t le_rfl
        have hut : res.2.1 t = s.us t - α • s.k t -
            (s.K t).mulVec ((p.runningModels t).stateDiff (s.xs t) (xtry t)) := by
          rw [i3 t (by omega), hacc]
          exact Function.update_same _ _ _
        refine ⟨hx_at, ?_, ?_, ?_, ?_, ?_⟩
        · intro j hj
          rw [i2 j (by omega), hacc]
          exact Function.update_noteq (by omega) _ _
        · intro j hj
          rw [i3 j (by omega), hacc]
          exact Function.update_noteq (by omega) _ _
        · intro j hj
          rw [i4 j (by omega), hacc]
          exact Function.update_noteq (by omega) _ _
        · intro j hj1 hj2
          rcases Nat.eq_or_lt_of_le hj1 with rfl | hlt
          · refine ⟨by rw [hut, hxt], ?_⟩
            have he : res.1 (t + 1) = acc1.1 (t + 1) := i1 (t + 1) le_rfl
            rw [he, hacc]
            dsimp only
            rw [Function.update_same, hut, hxt]
          · exact i5 j (by omega) (by omega)
        · rw [i6]
          have hsum : ∑ j ∈ Finset.Ico t (t + (n + 1)),
              (p.runningModels j).cost (res.1 j) (res.2.1 j) =
            (p.runningModels t).cost (res.1 t) (res.2.1 t) +
            ∑ j ∈ Finset.Ico (t + 1) (t + (n + 1)),
              (p.runningModels j).cost (res.1 j) (res.2.1 j) :=
            Finset.sum_eq_sum_Ico_succ_bot (by omega) _
          have harr : t + 1 + n = t + (n + 1) := by omega
          have hc : acc1.2.2 =
              ctry + (p.runningModels t).cost (res.1 t) (res.2.1 t) := by
            rw [hacc]
            dsimp only
            rw [hut.symm, hxt.symm]
          rw [harr, hc, hsum]
          ring

/-- C6: a successful forward pass with step length `α` computes
`u_try_t = u_t − α·k_t − K_t·difference(x_t, x_try_t)` for every stage,
keeps `x_try_0` pinned to the problem's initial state, steps the tried state
through the stage dynamics, and returns the sum of the stage costs plus the
terminal cost at `x_try_T` as the tried cost. -/
theorem C6_forward_pass_rollout (p : ShootingProblem ndx nu)
    (s : DDPState ndx nu) (α : ℚ) (hx0 : s.xs_try 0 = p.initialState)
    (h : exceptOk (forwardPass p s α) = true) :
    ∃ s', forwardPass p s α = .ok s' ∧
      s'.xs_try 0 = p.initialState ∧
      (∀ t < p.T,
        s'.us_try t = s.us t - α • s.k t -
          (s.K t).mulVec ((p.runningModels t).stateDiff (s.xs t) (s'.xs_try t)) ∧
        s'.xs_try (t + 1) = (p.runningModels t).xnext (s'.xs_try t) (s'.us_try t)) ∧
      s'.cost_try = (∑ t ∈ Finset.range p.T,
        (p.runningModels t).cost (s'.xs_try t) (s'.us_try t)) +
        p.terminalModel.cost (s'.xs_try p.T) := by
  rcases hf : forwardPass p s α with e | s'
  · rw [hf] at h; simp [exceptOk] at h
  · refine ⟨s', rfl, ?_⟩
    simp only [forwardPass] at hf
    rcases hloop : forwardLoop p s α (s.xs_try, s.us_try, 0) (List.range p.T)
      with e | res
    · rw [hloop] at hf; cases hf
    · rw [hloop] at hf
      have hf2 : (if numBad (res.2.2 + p.terminalModel.cost (res.1 p.T)) then
          (Except.error () : Except Unit (DDPState ndx nu))
        else .ok (fwFinish p s res)) = .ok s' := hf
      clear hf
      split at hf2
      · cases hf2
      · simp only [Except.ok.injEq] at hf2
        rw [List.range_eq_range'] at hloop
        obtain ⟨i1, i2, i3, i4, i5, i6⟩ :=
          forwardLoop_spec p s α p.T 0 s.xs_try s.us_try 0 res hloop
        have hxs' : s'.xs_try = res.1 := by rw [← hf2]; exact rfl
        have hus' : s'.us_try = res.2.1 := by rw [← hf2]; exact rfl
        have hc' : s'.cost_try = res.2.2 + p.terminalModel.cost (res.1 p.T) := by
          rw [← hf2]; exact rfl
        refine ⟨?_, ?_, ?_⟩
        · rw [hxs', i1 0 le_rfl, hx0]
        · intro t ht
          obtain ⟨e1, e2⟩ := i5 t (by omega) (by omega)
          rw [hxs', hus']
          exact ⟨e1, e2⟩
        · rw [hc', hxs', hus', i6]
          rw [Finset.range_eq_Ico]
          simp

/-- C6 witness: the forward pass at full step on the concrete `exP3` run
(with `xs_try[0]` holding the initial state) succeeds and satisfies the
rollout equations. -/
theorem C6_witness :
    ∃ s', forwardPass exP3 exS3Dir 1 = .ok s' ∧
      s'.xs_try 0 = exP3.initialState ∧
      (∀ t < exP3.T,
        s'.us_try t = exS3Dir.us t - (1 : ℚ) • exS3Dir.k t -
          (exS3Dir.K t).mulVec
            ((exP3.runningModels t).stateDiff (exS3Dir.xs t) (s'.xs_try t)) ∧
        s'.xs_try (t + 1) =
          (exP3.runningModels t).xnext (s'.xs_try t) (s'.us_try t)) ∧
      s'.cost_try = (∑ t ∈ Finset.range exP3.T,
        (exP3.runningModels t).cost (s'.xs_try t) (s'.us_try t)) +
        exP3.terminalModel.cost (s'.xs_try exP3.T) :=
  C6_forward_pass_rollout exP3 exS3Dir 1 (by decide) (by decide)

/-! ## Claim C5 -/

/-- The acceptance condition of the line search at step size `a`, given the
realized improvement `dV = cost - cost_try` and the feasibility flag:
`d1 < th_grad or not isFeasible or dV > th_acceptStep * (a * (d1 + 0.5*d2*a))`. -/
def lsCond (th : Thresholds) (d1 d2 a dV : ℚ) (feas : Bool) : Prop :=
  d1 < th_grad ∨ feas = false ∨
    th.th_acceptStep * (a * (d1 + (1 / 2) * d2 * a)) < dV

/-- The fields of the solver state that the line-search trials read: two
states agreeing on them produce the same trial outcomes.  (`xs_try` entries
other than index 0 are scratch output, rewritten before being read.) -/
def lsCoreEq (s1 s2 : DDPState ndx nu) : Prop :=
  s1.xs = s2.xs ∧ s1.us = s2.us ∧ s1.K = s2.K ∧ s1.k = s2.k ∧
  s1.cost = s2.cost ∧ s1.isFeasible = s2.isFeasible ∧
  s1.wasFeasible = s2.wasFeasible ∧ s1.xs_try 0 = s2.xs_try 0

lemma lsCoreEq_refl (s : DDPState ndx nu) : lsCoreEq s s :=
  ⟨rfl, rfl, rfl, rfl, rfl, rfl, rfl, rfl⟩

/-- One forward-rollout step from accumulators agreeing at the read index
either fails on both sides or succeeds on both with equal cost and equal
next tried state. -/
lemma fwStep_congr (p : ShootingProblem ndx nu) (s1 s2 : DDPState ndx nu)
    (a : ℚ) (t : ℕ) (x1 x2 : ℕ → QVec ndx) (u1 u2 : ℕ → QVec nu) (c : ℚ)
    (hxs : s1.xs = s2.xs) (hus : s1.us = s2.us) (hK : s1.K = s2.K)
    (hk : s1.k = s2.k) (hx : x1 t = x2 t) :
    (fwStep p s1 a (x1, u1, c) t = .error () ∧
      fwStep p s2 a (x2, u2, c) t = .error ()) ∨
    (∃ acc1 acc2, fwStep p s1 a (x1, u1, c) t = .ok acc1 ∧
      fwStep p s2 a (x2, u2, c) t = .ok acc2 ∧
      acc1.2.2 = acc2.2.2 ∧ acc1.1 (t + 1) = acc2.1 (t + 1)) := by
  have hd : (p.runningModels t).stateDiff (s1.xs t) (x1 t) =
      (p.runningModels t).stateDiff (s2.xs t) (x2 t) := by rw [hxs, hx]
  have hu : s1.us t - a • s1.k t - (s1.K t).mulVec
        ((p.runningModels t).stateDiff (s1.xs t) (x1 t)) =
      s2.us t - a • s2.k t - (s2.K t).mulVec
        ((p.runningModels t).stateDiff (s2.xs t) (x2 t)) := by
    rw [hus, hk, hK, hd]
  simp only [fwStep]
  rw [hu, hx]
  split
  · exact Or.inl ⟨rfl, rfl⟩
  · split
    · exact Or.inl ⟨rfl, rfl⟩
    · refine Or.inr ⟨_, _, rfl, rfl, rfl, ?_⟩
      dsimp only
      rw [Function.update_same, Function.update_same]

/-- The forward rollout from core-equal states and accumulators agreeing at
the next read index: both sides fail together, or succeed together with
equal accumulated cost and equal tried state at the index past the
window. -/
lemma forwardLoop_congr (p : ShootingProblem ndx nu) (s1 s2 : DDPState ndx nu)
    (a : ℚ) (hxs : s1.xs = s2.xs) (hus : s1.us = s2.us) (hK : s1.K = s2.K)
    (hk : s1.k = s2.k) :
    ∀ (n t : ℕ) (x1 x2 : ℕ → QVec ndx) (u1 u2 : ℕ → QVec nu) (c1 c2 : ℚ),
      c1 = c2 → x1 t = x2 t →
      (∀ e, forwardLoop p s1 a (x1, u1, c1) (List.range' t n) = .error e →
        forwardLoop p s2 a (x2, u2, c2) (List.range' t n) = .error ()) ∧
      (∀ r1, forwardLoop p s1 a (x1, u1, c1) (List.range' t n) = .ok r1 →
        ∃ r2, forwardLoop p s2 a (x2, u2, c2) (List.range' t n) = .ok r2 ∧
          r1.2.2 = r2.2.2 ∧ r1.1 (t + n) = r2.1 (t + n)) := by
  intro n
  induction n with
  | zero =>
      intro t x1 x2 u1 u2 c1 c2 hc hx
      constructor
      · intro e he
        rw [List.range'_zero, forwardLoop_nil] at he
        cases he
      · intro r1 h1
        rw [List.range'_zero, forwardLoop_nil] at h1
        rw [List.range'_zero, forwardLoop_nil]
        simp only [Except.ok.injEq] at h1
        subst h1
        exact ⟨(x2, u2, c2), rfl, hc, hx⟩
  | succ n ihn =>
      intro t x1 x2 u1 u2 c1 c2 hc hx
      subst hc
      rcases fwStep_congr p s1 s2 a t x1 x2 u1 u2 c1 hxs hus hK hk hx with
        ⟨he1, he2⟩ | ⟨acc1, acc2, ho1, ho2, hcc, hx1⟩
      · constructor
        · intro e _
          rw [List.range'_succ, forwardLoop_cons, he2]
        · intro r1 h1
          rw [List.range'_succ, forwardLoop_cons, he1] at h1
          cases h1
      · have harr : t + 1 + n = t + (n + 1) := by omega
        obtain ⟨ihe, iho⟩ := ihn (t + 1) acc1.1 acc2.1 acc1.2.1 acc2.2.1
          acc1.2.2 acc2.2.2 hcc hx1
        constructor
        · intro e h1
          rw [List.range'_succ, forwardLoop_cons, ho1] at h1
          rw [List.range'_succ, forwardLoop_cons, ho2]
          exact ihe e h1
        · intro r1 h1
          rw [List.range'_succ, forwardLoop_cons, ho1] at h1
          rw [List.range'_succ, forwardLoop_cons, ho2]
          obtain ⟨r2, hr2, hcq, hxq⟩ := iho r1 h1
          rw [harr] at hxq
          exact ⟨r2, hr2, hcq, hxq⟩

/-- A successful forward pass only writes `xs_try` (indices ≥ 1), `us_try`
and `cost_try`. -/
lemma forwardPass_fields (p : ShootingProblem ndx nu) (s s' : DDPState ndx nu)
    (a : ℚ) (h : forwardPass p s a = .ok s') :
    s'.xs = s.xs ∧ s'.us = s.us ∧ s'.K = s.K ∧ s'.k = s.k ∧
    s'.cost = s.cost ∧ s'.isFeasible = s.isFeasible ∧
    s'.wasFeasible = s.wasFeasible ∧ s'.x_reg = s.x_reg ∧
    s'.u_reg = s.u_reg ∧ s'.xs_try 0 = s.xs_try 0 := by
  simp only [forwardPass] at h
  rcases hloop : forwardLoop p s a (s.xs_try, s.us_try, 0) (List.range p.T)
    with e | res
  · rw [hloop] at h; cases h
  · rw [hloop] at h
    have h2 : (if numBad (res.2.2 + p.terminalModel.cost (res.1 p.T)) then
        (Except.error () : Except Unit (DDPState ndx nu))
      else .ok (fwFinish p s res)) = .ok s' := h
    clear h
    split at h2
    · cases h2
    · simp only [Except.ok.injEq] at h2
      subst h2
      rw [List.range_eq_range'] at hloop
      obtain ⟨i1, -, -, -, -, -⟩ :=
        forwardLoop_spec p s a p.T 0 s.xs_try s.us_try 0 res hloop
      exact ⟨rfl, rfl, rfl, rfl, rfl, rfl, rfl, rfl, rfl, i1 0 le_rfl⟩

/-- `tryStep` succeeds exactly when `forwardPass` does, returning the updated
state with `dV = cost - cost_try`. -/
lemma tryStep_ok_iff (p : ShootingProblem ndx nu) (s : DDPState ndx nu)
    (a : ℚ) (r : DDPState ndx nu × ℚ) (h : tryStep p s a = .ok r) :
    forwardPass p s a = .ok r.1 ∧ r.2 = r.1.cost - r.1.cost_try := by
  simp only [tryStep] at h
  rcases hf : forwardPass p s a with e | s1
  · rw [hf] at h; cases h
  · rw [hf] at h
    simp only [Except.ok.injEq] at h
    subst h
    exact ⟨rfl, rfl⟩

lemma tryStep_error (p : ShootingProblem ndx nu) (s : DDPState ndx nu)
    (a : ℚ) (e : Unit) (h : tryStep p s a = .error e) :
    forwardPass p s a = .error () := by
  simp only [tryStep] at h
  rcases hf : forwardPass p s a with e1 | s1
  · rfl
  · rw [hf] at h; cases h

lemma forwardPass_of_loop_error (p : ShootingProblem ndx nu)
    (s : DDPState ndx nu) (a : ℚ) (e : Unit)
    (hl : forwardLoop p s a (s.xs_try, s.us_try, 0) (List.range p.T) =
      .error e) : forwardPass p s a = .error e := by
  simp only [forwardPass]
  rw [hl]

lemma forwardPass_of_loop_ok (p : ShootingProblem ndx nu)
    (s : DDPState ndx nu) (a : ℚ)
    (res : (ℕ → QVec ndx) × (ℕ → QVec nu) × ℚ)
    (hl : forwardLoop p s a (s.xs_try, s.us_try, 0) (List.range p.T) =
      .ok res) :
    forwardPass p s a =
      (if numBad (res.2.2 + p.terminalModel.cost (res.1 p.T)) then .error ()
       else .ok (fwFinish p s res)) := by
  simp only [forwardPass]
  rw [hl]

lemma tryStep_of_fw_error (p : ShootingProblem ndx nu) (s : DDPState ndx nu)
    (a : ℚ) (e : Unit) (h : forwardPass p s a = .error e) :
    tryStep p s a = .error e := by
  simp only [tryStep]
  rw [h]

lemma tryStep_of_fw_ok (p : ShootingProblem ndx nu) (s s1 : DDPState ndx nu)
    (a : ℚ) (h : forwardPass p s a = .ok s1) :
    tryStep p s a = .ok (s1, s1.cost - s1.cost_try) := by
  simp only [tryStep]
  rw [h]

/-- Line-search trials from core-equal states fail together or succeed
together with the same realized improvement `dV`. -/
lemma tryStep_rel (p : ShootingProblem ndx nu) (s1 s2 : DDPState ndx nu)
    (a : ℚ) (hcore : lsCoreEq s1 s2) :
    (tryStep p s1 a = .error () ∧ tryStep p s2 a = .error ()) ∨
    (∃ r1 r2, tryStep p s1 a = .ok r1 ∧ tryStep p s2 a = .ok r2 ∧
      r1.2 = r2.2 ∧ r1.1.isFeasible = s1.isFeasible) := by
  obtain ⟨hxs, hus, hK, hk, hcost, hfeas, hwf, hx0⟩ := hcore
  obtain ⟨ce, co⟩ := forwardLoop_congr p s1 s2 a hxs hus hK hk p.T 0
    s1.xs_try s2.xs_try s1.us_try s2.us_try 0 0 rfl hx0
  rw [← List.range_eq_range'] at ce co
  rcases hl1 : forwardLoop p s1 a (s1.xs_try, s1.us_try, 0)
      (List.range p.T) with e | res1
  · -- both rollouts fail
    have hl2 := ce e hl1
    exact Or.inl ⟨tryStep_of_fw_error p s1 a e
        (forwardPass_of_loop_error p s1 a e hl1),
      tryStep_of_fw_error p s2 a ()
        (forwardPass_of_loop_error p s2 a () hl2)⟩
  · obtain ⟨res2, hl2, hcq, hxq⟩ := co res1 hl1
    have hterm : res1.2.2 + p.terminalModel.cost (res1.1 p.T) =
        res2.2.2 + p.terminalModel.cost (res2.1 p.T) := by
      rw [hcq]
      have hx : res1.1 (0 + p.T) = res2.1 (0 + p.T) := hxq
      rw [Nat.zero_add] at hx
      rw [hx]
    have hf1 := forwardPass_of_loop_ok p s1 a res1 hl1
    have hf2 := forwardPass_of_loop_ok p s2 a res2 hl2
    by_cases hbad : numBad (res1.2.2 + p.terminalModel.cost (res1.1 p.T)) = true
    · rw [if_pos hbad] at hf1
      rw [if_pos (hterm ▸ hbad)] at hf2
      exact Or.inl ⟨tryStep_of_fw_error p s1 a () hf1,
        tryStep_of_fw_error p s2 a () hf2⟩
    · rw [if_neg hbad] at hf1
      rw [if_neg (fun hc => hbad (hterm ▸ hc))] at hf2
      refine Or.inr ⟨(fwFinish p s1 res1,
          (fwFinish p s1 res1).cost - (fwFinish p s1 res1).cost_try),
        (fwFinish p s2 res2,
          (fwFinish p s2 res2).cost - (fwFinish p s2 res2).cost_try),
        tryStep_of_fw_ok p s1 _ a hf1, tryStep_of_fw_ok p s2 _ a hf2, ?_, rfl⟩
      show s1.cost - (res1.2.2 + p.terminalModel.cost (res1.1 p.T)) =
        s2.cost - (res2.2.2 + p.terminalModel.cost (res2.1 p.T))
      rw [hcost, hterm]

/-- Unfolding lemma: the line-search loop on an empty ladder. -/
lemma lsGo_nil_eq (p : ShootingProblem ndx nu) (th : Thresholds)
    (d1 d2 : ℚ) (s : DDPState ndx nu) :
    lsGo p th d1 d2 s [] = (s, 0, false) := rfl

/-- Unfolding lemma: one line-search step after a failed trial. -/
lemma lsGo_cons_error (p : ShootingProblem ndx nu) (th : Thresholds)
    (d1 d2 : ℚ) (s : DDPState ndx nu) (a : ℚ) (rest : List ℚ) (e : Unit)
    (h : tryStep p s a = .error e) :
    lsGo p th d1 d2 s (a :: rest) =
      (if rest.isEmpty then (s, a, false) else lsGo p th d1 d2 s rest) := by
  show (match tryStep p s a with
      | .error _ =>
          if rest.isEmpty then (s, a, false) else lsGo p th d1 d2 s rest
      | .ok r =>
          let s1 := lsTrialState r a d1 d2
          if d1 < th_grad ∨ s1.isFeasible = false ∨
              th.th_acceptStep * s1.dV_exp < s1.dV then
            (lsAcceptState s1, a, true)
          else if rest.isEmpty then (s1, a, false)
          else lsGo p th d1 d2 s1 rest) = _
  rw [h]

/-- Unfolding lemma: one line-search step after a successful trial. -/
lemma lsGo_cons_ok (p : ShootingProblem ndx nu) (th : Thresholds)
    (d1 d2 : ℚ) (s : DDPState ndx nu) (a : ℚ) (rest : List ℚ)
    (r : DDPState ndx nu × ℚ) (h : tryStep p s a = .ok r) :
    lsGo p th d1 d2 s (a :: rest) =
      (if d1 < th_grad ∨ (lsTrialState r a d1 d2).isFeasible = false ∨
          th.th_acceptStep * (lsTrialState r a d1 d2).dV_exp <
            (lsTrialState r a d1 d2).dV then
        (lsAcceptState (lsTrialState r a d1 d2), a, true)
      else if rest.isEmpty then (lsTrialState r a d1 d2, a, false)
      else lsGo p th d1 d2 (lsTrialState r a d1 d2) rest) := by
  show (match tryStep p s a with
      | .error _ =>
          if rest.isEmpty then (s, a, false) else lsGo p th d1 d2 s rest
      | .ok r =>
          let s1 := lsTrialState r a d1 d2
          if d1 < th_grad ∨ s1.isFeasible = false ∨
              th.th_acceptStep * s1.dV_exp < s1.dV then
            (lsAcceptState s1, a, true)
          else if rest.isEmpty then (s1, a, false)
          else lsGo p th d1 d2 s1 rest) = _
  rw [h]

/-- An unaccepted (or failed) trial keeps the line-search core state. -/
lemma lsCoreEq_after_trial (p : ShootingProblem ndx nu)
    (sc s0 : DDPState ndx nu) (a d1 d2 : ℚ) (r : DDPState ndx nu × ℚ)
    (hcore : lsCoreEq sc s0) (h : tryStep p sc a = .ok r) :
    lsCoreEq (lsTrialState r a d1 d2) s0 := by
  obtain ⟨hfw, -⟩ := tryStep_ok_iff p sc a r h
  obtain ⟨f1, f2, f3, f4, f5, f6, f7, -, -, f10⟩ :=
    forwardPass_fields p sc r.1 a hfw
  obtain ⟨g1, g2, g3, g4, g5, g6, g7, g8⟩ := hcore
  exact ⟨f1.trans g1, f2.trans g2, f3.trans g3, f4.trans g4, f5.trans g5,
    f6.trans g6, f7.trans g7, f10.trans g8⟩

/-- The line-search loop over a list of step sizes, characterized against
trials taken from the (fixed) post-direction state `s0`: on acceptance the
returned step size is the first of the list whose trial succeeds and passes
the acceptance condition, and the commit writes hold; on fall-through no
step of the list is acceptable. -/
lemma lsGo_spec (p : ShootingProblem ndx nu) (th : Thresholds) (d1 d2 : ℚ) :
    ∀ (l : List ℚ) (s0 sc : DDPState ndx nu), lsCoreEq sc s0 →
      (((lsGo p th d1 d2 sc l).2.2 = true →
        ∃ i : ℕ, ∃ hi : i < l.length,
          l.get ⟨i, hi⟩ = (lsGo p th d1 d2 sc l).2.1 ∧
          (∃ r, tryStep p s0 (l.get ⟨i, hi⟩) = .ok r ∧
            lsCond th d1 d2 (l.get ⟨i, hi⟩) r.2 s0.isFeasible) ∧
          (∀ j (hj : j < l.length), j < i →
            tryStep p s0 (l.get ⟨j, hj⟩) = .error () ∨
            (∃ r, tryStep p s0 (l.get ⟨j, hj⟩) = .ok r ∧
              ¬ lsCond th d1 d2 (l.get ⟨j, hj⟩) r.2 s0.isFeasible)) ∧
          ((lsGo p th d1 d2 sc l).1.isFeasible = true ∧
           (lsGo p th d1 d2 sc l).1.wasFeasible = s0.isFeasible ∧
           (lsGo p th d1 d2 sc l).1.xs = (lsGo p th d1 d2 sc l).1.xs_try ∧
           (lsGo p th d1 d2 sc l).1.us = (lsGo p th d1 d2 sc l).1.us_try ∧
           (lsGo p th d1 d2 sc l).1.cost = (lsGo p th d1 d2 sc l).1.cost_try)) ∧
       ((lsGo p th d1 d2 sc l).2.2 = false →
        ∀ j (hj : j < l.length),
          tryStep p s0 (l.get ⟨j, hj⟩) = .error () ∨
          (∃ r, tryStep p s0 (l.get ⟨j, hj⟩) = .ok r ∧
            ¬ lsCond th d1 d2 (l.get ⟨j, hj⟩) r.2 s0.isFeasible))) := by
  intro l
  induction l with
  | nil =>
      intro s0 sc hcore
      rw [lsGo_nil_eq]
      constructor
      · intro hacc; cases hacc
      · intro _ j hj; simp at hj
  | cons a rest ih =>
      intro s0 sc hcore
      rcases hts : tryStep p sc a with e | r
      · -- trial raised: the same trial from s0 raises as well
        have hts0 : tryStep p s0 a = .error () := by
          rcases tryStep_rel p sc s0 a hcore with ⟨-, h2⟩ | ⟨r1, -, hr1, -, -⟩
          · exact h2
          · rw [hts] at hr1; cases hr1
        rw [lsGo_cons_error p th d1 d2 sc a rest e hts]
        by_cases hre : rest.isEmpty
        · -- ladder exhausted
          rw [if_pos hre]
          refine ⟨fun hacc => (by cases hacc), fun _ j hj => ?_⟩
          have hrest : rest = [] := List.isEmpty_iff.mp hre
          subst hrest
          have hj0 : j = 0 := by
            simp only [List.length_cons, List.length_nil] at hj
            omega
          subst hj0
          exact Or.inl hts0
        · rw [if_neg hre]
          obtain ⟨ia, if_⟩ := ih s0 sc hcore
          constructor
          · intro hacc
            obtain ⟨i, hi, hget, hok, hearlier, hcommit⟩ := ia hacc
            refine ⟨i + 1, by simpa using Nat.succ_lt_succ hi, ?_, ?_, ?_, hcommit⟩
            · simpa using hget
            · simpa using hok
            · intro j hj hji
              cases j with
              | zero => exact Or.inl hts0
              | succ j1 =>
                  have hj1 : j1 < rest.length := by simpa using hj
                  simpa using hearlier j1 hj1 (by omega)
          · intro hacc j hj
            cases j with
            | zero => exact Or.inl hts0
            | succ j1 =>
                have hj1 : j1 < rest.length := by simpa using hj
                simpa using if_ hacc j1 hj1
      · -- trial succeeded: the same trial from s0 succeeds with the same dV
        obtain ⟨r0, hts0, hdv, hfs⟩ : ∃ r0, tryStep p s0 a = .ok r0 ∧
            r.2 = r0.2 ∧ r.1.isFeasible = s0.isFeasible := by
          rcases tryStep_rel p sc s0 a hcore with ⟨h1, -⟩ | ⟨r1, r2, hr1, hr2, hq, hfeq⟩
          · rw [hts] at h1; cases h1
          · rw [hts] at hr1
            obtain rfl : r1 = r := by cases hr1; rfl
            exact ⟨r2, hr2, hq, hfeq.trans hcore.2.2.2.2.2.1⟩
        rw [lsGo_cons_ok p th d1 d2 sc a rest r hts]
        by_cases hc : d1 < th_grad ∨ (lsTrialState r a d1 d2).isFeasible = false ∨
            th.th_acceptStep * (lsTrialState r a d1 d2).dV_exp <
              (lsTrialState r a d1 d2).dV
        · -- accepted at the head step size
          rw [if_pos hc]
          have hc1 : lsCond th d1 d2 a r0.2 s0.isFeasible := by
            have hc2 : d1 < th_grad ∨ r.1.isFeasible = false ∨
                th.th_acceptStep * (a * (d1 + (1 / 2) * d2 * a)) < r.2 := hc
            rw [hfs, hdv] at hc2
            exact hc2
          constructor
          · intro _
            exact ⟨0, by simp, rfl, ⟨r0, hts0, hc1⟩, fun j hj hji => by omega,
              rfl, hfs, rfl, rfl, rfl⟩
          · intro hacc; cases hacc
        · rw [if_neg hc]
          have hc1 : ¬ lsCond th d1 d2 a r0.2 s0.isFeasible := by
            intro hl
            apply hc
            show d1 < th_grad ∨ r.1.isFeasible = false ∨
                th.th_acceptStep * (a * (d1 + (1 / 2) * d2 * a)) < r.2
            rw [hfs, hdv]
            exact hl
          by_cases hre : rest.isEmpty
          · rw [if_pos hre]
            refine ⟨fun hacc => (by cases hacc), fun _ j hj => ?_⟩
            have hrest : rest = [] := List.isEmpty_iff.mp hre
            subst hrest
            have hj0 : j = 0 := by
              simp only [List.length_cons, List.length_nil] at hj
              omega
            subst hj0
            exact Or.inr ⟨r0, hts0, hc1⟩
          · rw [if_neg hre]
            have hcore1 : lsCoreEq (lsTrialState r a d1 d2) s0 :=
              lsCoreEq_after_trial p sc s0 a d1 d2 r hcore hts
            obtain ⟨ia, if_⟩ := ih s0 _ hcore1
            constructor
            · intro hacc
              obtain ⟨i, hi, hget, hok, hearlier, hcommit⟩ := ia hacc
              refine ⟨i + 1, by simpa using Nat.succ_lt_succ hi, ?_, ?_, ?_,
                hcommit⟩
              · simpa using hget
              · simpa using hok
              · intro j hj hji
                cases j with
                | zero => exact Or.inr ⟨r0, hts0, hc1⟩
                | succ j1 =>
                    have hj1 : j1 < rest.length := by simpa using hj
                    simpa using hearlier j1 hj1 (by omega)
            · intro hacc j hj
              cases j with
              | zero => exact Or.inr ⟨r0, hts0, hc1⟩
              | succ j1 =>
                  have hj1 : j1 < rest.length := by simpa using hj
                  simpa using if_ hacc j1 hj1

/-- C5: the line search tries the step sizes `2^0, 2^-1, ..., 2^-9` in
decreasing order; a step size whose forward pass raises is skipped; the
first step size whose trial succeeds and satisfies
`d1 < th_grad or not isFeasible or cost - cost_try > th_acceptStep * (a * (d1 + 0.5*d2*a))`
is accepted, committing the tried trajectory as the new candidate, marking
it feasible, and setting `cost` to the tried cost. -/
theorem C5_line_search_first_acceptable (p : ShootingProblem ndx nu)
    (th : Thresholds) (d1 d2 : ℚ) (s : DDPState ndx nu) :
    alphas = [1, 1/2, 1/4, 1/8, 1/16, 1/32, 1/64, 1/128, 1/256, 1/512] ∧
    ((lineSearch p th d1 d2 s).2.2 = true →
      ∃ i : ℕ, ∃ hi : i < alphas.length,
        alphas.get ⟨i, hi⟩ = (lineSearch p th d1 d2 s).2.1 ∧
        (∃ r, tryStep p s (alphas.get ⟨i, hi⟩) = .ok r ∧
          lsCond th d1 d2 (alphas.get ⟨i, hi⟩) r.2 s.isFeasible) ∧
        (∀ j (hj : j < alphas.length), j < i →
          tryStep p s (alphas.get ⟨j, hj⟩) = .error () ∨
          (∃ r, tryStep p s (alphas.get ⟨j, hj⟩) = .ok r ∧
            ¬ lsCond th d1 d2 (alphas.get ⟨j, hj⟩) r.2 s.isFeasible)) ∧
        ((lineSearch p th d1 d2 s).1.isFeasible = true ∧
         (lineSearch p th d1 d2 s).1.wasFeasible = s.isFeasible ∧
         (lineSearch p th d1 d2 s).1.xs = (lineSearch p th d1 d2 s).1.xs_try ∧
         (lineSearch p th d1 d2 s).1.us = (lineSearch p th d1 d2 s).1.us_try ∧
         (lineSearch p th d1 d2 s).1.cost = (lineSearch p th d1 d2 s).1.cost_try)) ∧
    ((lineSearch p th d1 d2 s).2.2 = false →
      ∀ j (hj : j < alphas.length),
        tryStep p s (alphas.get ⟨j, hj⟩) = .error () ∨
        (∃ r, tryStep p s (alphas.get ⟨j, hj⟩) = .ok r ∧
          ¬ lsCond th d1 d2 (alphas.get ⟨j, hj⟩) r.2 s.isFeasible)) := by
  obtain ⟨h1, h2⟩ := lsGo_spec p th d1 d2 alphas s s (lsCoreEq_refl s)
  exact ⟨by decide, h1, h2⟩

/-- C5 witness: on the concrete `exP3` run (zero costs, `d1 = d2 = 0`) the
line search accepts, and the first-acceptable-step characterization holds. -/
theorem C5_witness :
    ∃ i : ℕ, ∃ hi : i < alphas.length,
      alphas.get ⟨i, hi⟩ = (lineSearch exP3 exTh3 0 0 exS3Dir).2.1 ∧
      (∃ r, tryStep exP3 exS3Dir (alphas.get ⟨i, hi⟩) = .ok r ∧
        lsCond exTh3 0 0 (alphas.get ⟨i, hi⟩) r.2 exS3Dir.isFeasible) ∧
      (∀ j (hj : j < alphas.length), j < i →
        tryStep exP3 exS3Dir (alphas.get ⟨j, hj⟩) = .error () ∨
        (∃ r, tryStep exP3 exS3Dir (alphas.get ⟨j, hj⟩) = .ok r ∧
          ¬ lsCond exTh3 0 0 (alphas.get ⟨j, hj⟩) r.2 exS3Dir.isFeasible)) ∧
      ((lineSearch exP3 exTh3 0 0 exS3Dir).1.isFeasible = true ∧
       (lineSearch exP3 exTh3 0 0 exS3Dir).1.wasFeasible = exS3Dir.isFeasible ∧
       (lineSearch exP3 exTh3 0 0 exS3Dir).1.xs =
         (lineSearch exP3 exTh3 0 0 exS3Dir).1.xs_try ∧
       (lineSearch exP3 exTh3 0 0 exS3Dir).1.us =
         (lineSearch exP3 exTh3 0 0 exS3Dir).1.us_try ∧
       (lineSearch exP3 exTh3 0 0 exS3Dir).1.cost =
         (lineSearch exP3 exTh3 0 0 exS3Dir).1.cost_try) :=
  (C5_line_search_first_acceptable exP3 exTh3 0 0 exS3Dir).2.1 (by decide)

/-! ## Claim C1 -/

/-- The accepted (or last tried) step size returned by the line-search loop
is an element of the ladder. -/
lemma lsGo_a_mem (p : ShootingProblem ndx nu) (th : Thresholds) (d1 d2 : ℚ) :
    ∀ (l : List ℚ) (s : DDPState ndx nu), l ≠ [] →
      (lsGo p th d1 d2 s l).2.1 ∈ l := by
  intro l
  induction l with
  | nil => intro s h; exact absurd rfl h
  | cons a rest ih =>
      intro s _
      rcases hts : tryStep p s a with e | r
      · rw [lsGo_cons_error p th d1 d2 s a rest e hts]
        by_cases hre : rest.isEmpty
        · rw [if_pos hre]; exact List.mem_cons_self a rest
        · rw [if_neg hre]
          exact List.mem_cons_of_mem a
            (ih s (fun hc => hre (by rw [hc]; rfl)))
      · rw [lsGo_cons_ok p th d1 d2 s a rest r hts]
        split
        · exact List.mem_cons_self a rest
        · by_cases hre : rest.isEmpty
          · rw [if_pos hre]; exact List.mem_cons_self a rest
          · rw [if_neg hre]
            exact List.mem_cons_of_mem a
              (ih _ (fun hc => hre (by rw [hc]; rfl)))

/-- When no step size is accepted, the loop variable ends at the last
element of the ladder. -/
lemma lsGo_not_accepted_last (p : ShootingProblem ndx nu) (th : Thresholds)
    (d1 d2 : ℚ) :
    ∀ (l : List ℚ) (s : DDPState ndx nu) (d : ℚ), l ≠ [] →
      (lsGo p th d1 d2 s l).2.2 = false →
      (lsGo p th d1 d2 s l).2.1 = l.getLastD d := by
  intro l
  induction l with
  | nil => intro s d h; exact absurd rfl h
  | @cons a rest ih =>
      intro s d _
      rw [List.getLastD_cons]
      rcases hts : tryStep p s a with e | r
      · rw [lsGo_cons_error p th d1 d2 s a rest e hts]
        by_cases hre : rest.isEmpty
        · rw [if_pos hre]
          intro _
          have hrest : rest = [] := List.isEmpty_iff.mp hre
          subst hrest
          rfl
        · rw [if_neg hre]
          exact ih s a (fun hc => hre (by rw [hc]; rfl))
      · rw [lsGo_cons_ok p th d1 d2 s a rest r hts]
        split
        · intro hacc; cases hacc
        · by_cases hre : rest.isEmpty
          · rw [if_pos hre]
            intro _
            have hrest : rest = [] := List.isEmpty_iff.mp hre
            subst hrest
            rfl
          · rw [if_neg hre]
            exact ih _ a (fun hc => hre (by rw [hc]; rfl))

/-- C1 as stated: after the line search of a `solve` iteration, the
regularization is decreased (by 10, floored) when the tried step size
exceeds `th_step = 0.5`; it is increased (by 10, capped) if and only if no
step size was accepted; and a saturated increase makes `solve` return the
current candidate with `converged = False`. -/
def C1Stated : Prop :=
  (∀ (n m : ℕ) (p : ShootingProblem n m) (th : Thresholds) (d1 d2 : ℚ)
      (s : DDPState n m),
    (th_step < (lineSearch p th d1 d2 s).2.1 →
      (regUpdatePhase (lineSearch p th d1 d2 s).2.1
          (lineSearch p th d1 d2 s).1).1.x_reg =
        (if (lineSearch p th d1 d2 s).1.x_reg / regFactor < regMin then regMin
         else (lineSearch p th d1 d2 s).1.x_reg / regFactor)) ∧
    ((regUpdatePhase (lineSearch p th d1 d2 s).2.1
          (lineSearch p th d1 d2 s).1).1.x_reg =
        (if regMax < (lineSearch p th d1 d2 s).1.x_reg * regFactor then regMax
         else (lineSearch p th d1 d2 s).1.x_reg * regFactor) ↔
      (lineSearch p th d1 d2 s).2.2 = false)) ∧
  (∀ (n m : ℕ) (p : ShootingProblem n m) (th : Thresholds) (fuel i : ℕ)
      (s0 s1 : DDPState n m),
    bwRetry p fuel (calcPass p s0).1 = some (.ok s1) →
    (regUpdatePhase (lsPhase p th s1).2.1 (lsPhase p th s1).1).2 = true →
    solveIterCore p th fuel i s0 =
      some ((regUpdatePhase (lsPhase p th s1).2.1 (lsPhase p th s1).1).1,
        some false))

/-- The expected improvement of the `exP1` scenario, `d1 = 2`. -/
def exD1 : ℚ := (expectedImprovement exP1 exS1Dir).1

/-- The expected improvement of the `exP1` scenario, `d2 = -2`. -/
def exD2 : ℚ := (expectedImprovement exP1 exS1Dir).2

/-- C1 counterexample: in the concrete `exP1` run the line search accepts
the smallest step size `2^-9`, yet the regularization is increased from 1
to 10 (because the code tests `a == alphas[-1]`, not acceptance) — refuting
the increase-iff-no-acceptance part of the claim. -/
theorem C1_counterexample : ¬ C1Stated := by
  intro h
  have h2 := (h.1 1 1 exP1 exTh1 exD1 exD2 exS1Dir).2
  have hL : (regUpdatePhase (lineSearch exP1 exTh1 exD1 exD2 exS1Dir).2.1
      (lineSearch exP1 exTh1 exD1 exD2 exS1Dir).1).1.x_reg =
      (if regMax < (lineSearch exP1 exTh1 exD1 exD2 exS1Dir).1.x_reg * regFactor
       then regMax
       else (lineSearch exP1 exTh1 exD1 exD2 exS1Dir).1.x_reg * regFactor) := by
    decide
  have hacc : (lineSearch exP1 exTh1 exD1 exD2 exS1Dir).2.2 = true := by decide
  have hfalse := h2.mp hL
  rw [hacc] at hfalse
  cases hfalse

/-- C1 (amended): after the line search of a `solve` iteration, with `a`
the accepted (or last tried) step size: the regularization is decreased by
the factor 10 (floored at 1e-9) when `a > 0.5`; it is increased by the
factor 10 (capped at 1e9) exactly when `a` equals the smallest ladder value
`2^-9` — which happens both when no step was accepted and when the accepted
step is the smallest one, so the increase is NOT equivalent to
non-acceptance; `u_reg` follows `x_reg` in both updates; and when the
increase saturates at 1e9 the iteration exits, making `solve` return the
current candidate with `converged = False`. -/
theorem C1_amended_regularization (p : ShootingProblem ndx nu)
    (th : Thresholds) (d1 d2 : ℚ) (s : DDPState ndx nu) :
    (th_step < (lineSearch p th d1 d2 s).2.1 →
      (regUpdatePhase (lineSearch p th d1 d2 s).2.1
          (lineSearch p th d1 d2 s).1).1.x_reg =
        (if (lineSearch p th d1 d2 s).1.x_reg / regFactor < regMin then regMin
         else (lineSearch p th d1 d2 s).1.x_reg / regFactor) ∧
      (regUpdatePhase (lineSearch p th d1 d2 s).2.1
          (lineSearch p th d1 d2 s).1).1.u_reg =
        (regUpdatePhase (lineSearch p th d1 d2 s).2.1
          (lineSearch p th d1 d2 s).1).1.x_reg) ∧
    ((lineSearch p th d1 d2 s).2.1 = alphaLast →
      (regUpdatePhase (lineSearch p th d1 d2 s).2.1
          (lineSearch p th d1 d2 s).1).1.x_reg =
        (if regMax < (lineSearch p th d1 d2 s).1.x_reg * regFactor then regMax
         else (lineSearch p th d1 d2 s).1.x_reg * regFactor) ∧
      (regUpdatePhase (lineSearch p th d1 d2 s).2.1
          (lineSearch p th d1 d2 s).1).1.u_reg =
        (regUpdatePhase (lineSearch p th d1 d2 s).2.1
          (lineSearch p th d1 d2 s).1).1.x_reg) ∧
    (¬ th_step < (lineSearch p th d1 d2 s).2.1 →
      (lineSearch p th d1 d2 s).2.1 ≠ alphaLast →
      (regUpdatePhase (lineSearch p th d1 d2 s).2.1
          (lineSearch p th d1 d2 s).1).1.x_reg =
        (lineSearch p th d1 d2 s).1.x_reg) ∧
    ((lineSearch p th d1 d2 s).2.2 = false →
      (lineSearch p th d1 d2 s).2.1 = alphaLast) ∧
    ((regUpdatePhase (lineSearch p th d1 d2 s).2.1
        (lineSearch p th d1 d2 s).1).2 = true ↔
      ((lineSearch p th d1 d2 s).2.1 = alphaLast ∧
       (regUpdatePhase (lineSearch p th d1 d2 s).2.1
          (lineSearch p th d1 d2 s).1).1.x_reg = regMax)) ∧
    (∀ (fuel i : ℕ) (s0 s1 : DDPState ndx nu),
      bwRetry p fuel (calcPass p s0).1 = some (.ok s1) →
      (regUpdatePhase (lsPhase p th s1).2.1 (lsPhase p th s1).1).2 = true →
      solveIterCore p th fuel i s0 =
        some ((regUpdatePhase (lsPhase p th s1).2.1 (lsPhase p th s1).1).1,
          some false)) := by
  refine ⟨?_, ?_, ?_, ?_, ?_, ?_⟩
  · intro ha
    have hne : (lineSearch p th d1 d2 s).2.1 ≠ alphaLast := by
      intro he
      rw [he] at ha
      exact absurd ha (by decide)
    simp only [regUpdatePhase, decreaseRegularization, if_pos ha, if_neg hne]
    exact ⟨trivial, trivial⟩
  · intro he
    have hno : ¬ th_step < (lineSearch p th d1 d2 s).2.1 := by
      rw [he]
      decide
    simp only [regUpdatePhase, increaseRegularization, if_pos he, if_neg hno]
    exact ⟨trivial, trivial⟩
  · intro h1 h2
    simp only [regUpdatePhase, if_neg h1, if_neg h2]
  · intro hacc
    exact lsGo_not_accepted_last p th d1 d2 alphas s 0 (by decide) hacc
  · by_cases he : (lineSearch p th d1 d2 s).2.1 = alphaLast
    · have hno : ¬ th_step < (lineSearch p th d1 d2 s).2.1 := by
        rw [he]
        decide
      simp only [regUpdatePhase, if_pos he, if_neg hno, decide_eq_true_eq]
      exact ⟨fun h => ⟨he, h⟩, fun h => h.2⟩
    · simp only [regUpdatePhase, if_neg he]
      simp [he]
  · intro fuel i s0 s1 hbw hsat
    simp only [solveIterCore, hbw]
    simp only [hsat, if_true]

/-- C1 witness: on the concrete `exP3` run the accepted step size is 1,
which exceeds `th_step = 0.5`, so the regularization is divided by 10 and
floored at `regMin`, with `u_reg` following. -/
theorem C1_witness :
    (regUpdatePhase (lineSearch exP3 exTh3 0 0 exS3Dir).2.1
        (lineSearch exP3 exTh3 0 0 exS3Dir).1).1.x_reg =
      (if (lineSearch exP3 exTh3 0 0 exS3Dir).1.x_reg / regFactor < regMin
       then regMin
       else (lineSearch exP3 exTh3 0 0 exS3Dir).1.x_reg / regFactor) ∧
    (regUpdatePhase (lineSearch exP3 exTh3 0 0 exS3Dir).2.1
        (lineSearch exP3 exTh3 0 0 exS3Dir).1).1.u_reg =
      (regUpdatePhase (lineSearch exP3 exTh3 0 0 exS3Dir).2.1
        (lineSearch exP3 exTh3 0 0 exS3Dir).1).1.x_reg :=
  (C1_amended_regularization exP3 exTh3 0 0 exS3Dir).1 (by decide)

/-! ## Claim C7 -/

/-- `calc` does not change the regularization. -/
lemma calcPass_regs (p : ShootingProblem ndx nu) (s : DDPState ndx nu) :
    (calcPass p s).1.x_reg = s.x_reg ∧ (calcPass p s).1.u_reg = s.u_reg := by
  simp only [calcPass]
  split <;> exact ⟨rfl, rfl⟩

/-- A successful backward pass does not change the regularization. -/
lemma backwardPass_regs (p : ShootingProblem ndx nu) (s s1 : DDPState ndx nu)
    (h : backwardPass p s = .ok s1) :
    s1.x_reg = s.x_reg ∧ s1.u_reg = s.u_reg := by
  simp only [backwardPass] at h
  have hpw : ((List.range p.T).reverse).Pairwise (fun a b => b < a) :=
    List.pairwise_reverse.mpr (List.pairwise_lt_range p.T)
  obtain ⟨⟨-, -, h3, h4, -, -, -⟩, -, -⟩ := backwardLoop_spec _ _ _ hpw h
  exact ⟨h3, h4⟩

/-- `decreaseRegularization` never drops `x_reg` below a bound `L ≤ regMin`. -/
lemma decrease_x_reg_ge (L : ℚ) (hLmin : L ≤ regMin) (s : DDPState ndx nu) :
    L ≤ (decreaseRegularization s).x_reg := by
  show L ≤ (if s.x_reg / regFactor < regMin then regMin else s.x_reg / regFactor)
  split
  · exact hLmin
  · rename_i hcase
    exact le_trans hLmin (not_lt.mp hcase)

/-- `increaseRegularization` keeps `x_reg` above any positive bound
`L ≤ regMax` that it already satisfies. -/
lemma increase_x_reg_ge (L : ℚ) (hL0 : 0 < L) (hLmax : L ≤ regMax)
    (s : DDPState ndx nu) (h : L ≤ s.x_reg) :
    L ≤ (increaseRegularization s).x_reg := by
  show L ≤ (if regMax < s.x_reg * regFactor then regMax else s.x_reg * regFactor)
  split
  · exact hLmax
  · exact le_trans h (le_mul_of_one_le_right
      (le_of_lt (lt_of_lt_of_le hL0 h)) (by norm_num [regFactor]))

/-- When the cap does not hit, `increaseRegularization` multiplies `x_reg`
by the factor. -/
lemma increase_x_reg_uncapped (s : DDPState ndx nu)
    (h : (increaseRegularization s).x_reg ≠ regMax) :
    (increaseRegularization s).x_reg = s.x_reg * regFactor := by
  by_cases hc : regMax < s.x_reg * regFactor
  · exact absurd (show (increaseRegularization s).x_reg = regMax from by
      show (if regMax < s.x_reg * regFactor then regMax
        else s.x_reg * regFactor) = regMax
      rw [if_pos hc]) h
  · show (if regMax < s.x_reg * regFactor then regMax
      else s.x_reg * regFactor) = s.x_reg * regFactor
    rw [if_neg hc]

/-- Unfolding lemma: one attempt of the backward-pass retry loop. -/
lemma bwRetry_succ (p : ShootingProblem ndx nu) (n : ℕ)
    (s : DDPState ndx nu) :
    bwRetry p (n + 1) s =
      (match backwardPass p s with
       | .ok s1 => some (.ok s1)
       | .error _ =>
           if (increaseRegularization s).x_reg = regMax
           then some (.error (increaseRegularization s))
           else bwRetry p n (increaseRegularization s)) := rfl

/-- Both possible outputs of the backward-pass retry loop keep `x_reg` above
any positive bound `L ≤ regMin` that the input satisfies. -/
lemma bwRetry_regs_ge (p : ShootingProblem ndx nu) (L : ℚ) (hL0 : 0 < L)
    (hLmin : L ≤ regMin) :
    ∀ (n : ℕ) (s : DDPState ndx nu), L ≤ s.x_reg →
      (∀ s1, bwRetry p n s = some (.ok s1) → L ≤ s1.x_reg) ∧
      (∀ s1, bwRetry p n s = some (.error s1) → L ≤ s1.x_reg) := by
  have hLmax : L ≤ regMax := le_trans hLmin (by norm_num [regMin, regMax])
  intro n
  induction n with
  | zero =>
      intro s hs
      exact ⟨fun s1 h => (by cases h), fun s1 h => (by cases h)⟩
  | succ n ih =>
      intro s hs
      have hincL : L ≤ (increaseRegularization s).x_reg :=
        increase_x_reg_ge L hL0 hLmax s hs
      constructor
      · intro s1 h
        rw [bwRetry_succ] at h
        rcases hb : backwardPass p s with e | s2
        · rw [hb] at h
          have h2 : (if (increaseRegularization s).x_reg = regMax
              then some (Except.error (increaseRegularization s))
              else bwRetry p n (increaseRegularization s)) =
                some (Except.ok s1) := h
          clear h
          split at h2
          · simp at h2
          · exact (ih (increaseRegularization s) hincL).1 s1 h2
        · rw [hb] at h
          have h3 : (some (Except.ok s2) :
              Option (Except (DDPState ndx nu) (DDPState ndx nu))) =
                some (Except.ok s1) := h
          have h2 : s2 = s1 := by simpa using h3
          subst h2
          rw [(backwardPass_regs p s s2 hb).1]
          exact hs
      · intro s1 h
        rw [bwRetry_succ] at h
        rcases hb : backwardPass p s with e | s2
        · rw [hb] at h
          have h2 : (if (increaseRegularization s).x_reg = regMax
              then some (Except.error (increaseRegularization s))
              else bwRetry p n (increaseRegularization s)) =
                some (Except.error s1) := h
          clear h
          split at h2
          · have h3 : increaseRegularization s = s1 := by simpa using h2
            rw [← h3]
            exact hincL
          · exact (ih (increaseRegularization s) hincL).2 s1 h2
        · rw [hb] at h
          have h3 : (some (Except.ok s2) :
              Option (Except (DDPState ndx nu) (DDPState ndx nu))) =
                some (Except.error s1) := h
          simp at h3

/-- Termination of the backward-pass retry loop: starting from a positive
regularization, `k + 1` attempts suffice once `regMax ≤ x_reg * 10^k`,
because each failed attempt multiplies `x_reg` by 10 until the cap fires
and the saturation return triggers. -/
lemma bwRetry_isSome (p : ShootingProblem ndx nu) :
    ∀ (k : ℕ) (s : DDPState ndx nu), 0 < s.x_reg →
      regMax ≤ s.x_reg * regFactor ^ k →
      (bwRetry p (k + 1) s).isSome = true := by
  intro k
  induction k with
  | zero =>
      intro s hpos hge
      simp only [pow_zero, mul_one] at hge
      rw [bwRetry_succ]
      rcases hb : backwardPass p s with e | s2
      · have hlt : regMax < s.x_reg * regFactor :=
          lt_of_le_of_lt hge
            (lt_mul_of_one_lt_right hpos (by norm_num [regFactor]))
        have hx : (increaseRegularization s).x_reg = regMax := by
          show (if regMax < s.x_reg * regFactor then regMax
            else s.x_reg * regFactor) = regMax
          rw [if_pos hlt]
        show (if (increaseRegularization s).x_reg = regMax
            then some (Except.error (increaseRegularization s))
            else bwRetry p 0 (increaseRegularization s)).isSome = true
        rw [if_pos hx]
        rfl
      · rfl
  | succ k ih =>
      intro s hpos hge
      rw [bwRetry_succ]
      rcases hb : backwardPass p s with e | s2
      · show (if (increaseRegularization s).x_reg = regMax
            then some (Except.error (increaseRegularization s))
            else bwRetry p (k + 1) (increaseRegularization s)).isSome = true
        by_cases hc : (increaseRegularization s).x_reg = regMax
        · rw [if_pos hc]
          rfl
        · rw [if_neg hc]
          have hxv := increase_x_reg_uncapped s hc
          apply ih (increaseRegularization s)
          · rw [hxv]
            exact mul_pos hpos (by norm_num [regFactor])
          · rw [hxv, mul_assoc, ← pow_succ']
            exact hge
      · rfl

/-- A fuel value large enough for the retry loop exists for every positive
starting regularization (the reals are archimedean; the factor is 10 > 1). -/
lemma exists_reg_fuel (x : ℚ) (hx : 0 < x) :
    ∃ F : ℕ, regMax ≤ x * regFactor ^ F := by
  obtain ⟨F, hF⟩ := pow_unbounded_of_one_lt (regMax / x)
    (show (1 : ℚ) < regFactor by norm_num [regFactor])
  refine ⟨F, ?_⟩
  rw [div_lt_iff hx] at hF
  have h3 : regMax < x * regFactor ^ F := by
    rw [mul_comm]
    exact hF
  exact h3.le

/-- The line-search loop does not change the regularization. -/
lemma lsGo_regs (p : ShootingProblem ndx nu) (th : Thresholds) (d1 d2 : ℚ) :
    ∀ (l : List ℚ) (s : DDPState ndx nu),
      (lsGo p th d1 d2 s l).1.x_reg = s.x_reg ∧
      (lsGo p th d1 d2 s l).1.u_reg = s.u_reg := by
  intro l
  induction l with
  | nil =>
      intro s
      rw [lsGo_nil_eq]
      exact ⟨rfl, rfl⟩
  | cons a rest ih =>
      intro s
      rcases ht : tryStep p s a with e | r
      · rw [lsGo_cons_error p th d1 d2 s a rest e ht]
        by_cases he : rest.isEmpty
        · rw [if_pos he]
          exact ⟨rfl, rfl⟩
        · rw [if_neg he]
          exact ih s
      · rw [lsGo_cons_ok p th d1 d2 s a rest r ht]
        obtain ⟨hfw, -⟩ := tryStep_ok_iff p s a r ht
        obtain ⟨-, -, -, -, -, -, -, hx, hu, -⟩ :=
          forwardPass_fields p s r.1 a hfw
        by_cases hacc : d1 < th_grad ∨
            (lsTrialState r a d1 d2).isFeasible = false ∨
            th.th_acceptStep * (lsTrialState r a d1 d2).dV_exp <
              (lsTrialState r a d1 d2).dV
        · rw [if_pos hacc]
          exact ⟨hx, hu⟩
        · rw [if_neg hacc]
          by_cases he : rest.isEmpty
          · rw [if_pos he]
            exact ⟨hx, hu⟩
          · rw [if_neg he]
            obtain ⟨ihx, ihu⟩ := ih (lsTrialState r a d1 d2)
            exact ⟨ihx.trans hx, ihu.trans hu⟩

/-- The regularization update keeps `x_reg` above any positive bound
`L ≤ regMin` that the input satisfies. -/
lemma regUpdatePhase_ge (L a : ℚ) (hL0 : 0 < L) (hLmin : L ≤ regMin)
    (s : DDPState ndx nu) (h : L ≤ s.x_reg) :
    L ≤ (regUpdatePhase a s).1.x_reg := by
  have hLmax : L ≤ regMax := le_trans hLmin (by norm_num [regMin, regMax])
  have h1 : L ≤ (if th_step < a then decreaseRegularization s else s).x_reg := by
    split
    · exact decrease_x_reg_ge L hLmin s
    · exact h
  simp only [regUpdatePhase]
  by_cases he : a = alphaLast
  · rw [if_pos he]
    exact increase_x_reg_ge L hL0 hLmax _ h1
  · rw [if_neg he]
    exact h1

/-- The bookkeeping state at the end of a non-saturated `solve` iteration:
the regularization-updated state with `stepLength`, `iter` and `stop`
recorded. -/
def lsBook (p : ShootingProblem ndx nu) (th : Thresholds) (i : ℕ)
    (s1 : DDPState ndx nu) : DDPState ndx nu :=
  let r := lsPhase p th s1
  let q := regUpdatePhase r.2.1 r.1
  { q.1 with stepLength := r.2.1, iter := i, stop := stoppingCriteria p q.1 }

/-- When the retry loop has enough fuel, one `solve` iteration always
produces a state (it never escapes with an error), and that state keeps
`x_reg` above any positive bound `L ≤ regMin` the input satisfies. -/
lemma solveIterCore_some (p : ShootingProblem ndx nu) (th : Thresholds)
    (fuel i : ℕ) (s : DDPState ndx nu) (L : ℚ) (hL0 : 0 < L)
    (hLmin : L ≤ regMin)
    (hbw : (bwRetry p fuel (calcPass p s).1).isSome = true)
    (hs : L ≤ s.x_reg) :
    ∃ s1 o, solveIterCore p th fuel i s = some (s1, o) ∧ L ≤ s1.x_reg := by
  have hcx : L ≤ (calcPass p s).1.x_reg := by
    rw [(calcPass_regs p s).1]
    exact hs
  rcases hr : bwRetry p fuel (calcPass p s).1 with _ | e
  · rw [hr] at hbw
    cases hbw
  · rcases e with s1 | s1
    · refine ⟨s1, some false, ?_, ?_⟩
      · simp only [solveIterCore]
        rw [hr]
      · exact (bwRetry_regs_ge p L hL0 hLmin fuel (calcPass p s).1 hcx).2 s1 hr
    · have hs1 : L ≤ s1.x_reg :=
        (bwRetry_regs_ge p L hL0 hLmin fuel (calcPass p s).1 hcx).1 s1 hr
      have hls : (lsPhase p th s1).1.x_reg = s1.x_reg :=
        (lsGo_regs p th (expectedImprovement p s1).1
          (expectedImprovement p s1).2 alphas s1).1
      have hq : L ≤ (regUpdatePhase (lsPhase p th s1).2.1
          (lsPhase p th s1).1).1.x_reg := by
        apply regUpdatePhase_ge L (lsPhase p th s1).2.1 hL0 hLmin
        rw [hls]
        exact hs1
      by_cases hsat : (regUpdatePhase (lsPhase p th s1).2.1
          (lsPhase p th s1).1).2 = true
      · refine ⟨(regUpdatePhase (lsPhase p th s1).2.1 (lsPhase p th s1).1).1,
          some false, ?_, hq⟩
        simp only [solveIterCore]
        rw [hr]
        show (if (regUpdatePhase (lsPhase p th s1).2.1
              (lsPhase p th s1).1).2 = true
            then some ((regUpdatePhase (lsPhase p th s1).2.1
              (lsPhase p th s1).1).1, some false)
            else if (lsBook p th i s1).wasFeasible = true ∧
                (lsBook p th i s1).stop < th.th_stop
              then some (lsBook p th i s1, some true)
              else some (lsBook p th i s1, none)) =
          some ((regUpdatePhase (lsPhase p th s1).2.1
            (lsPhase p th s1).1).1, some false)
        rw [if_pos hsat]
      · by_cases hconv : (lsBook p th i s1).wasFeasible = true ∧
            (lsBook p th i s1).stop < th.th_stop
        · refine ⟨lsBook p th i s1, some true, ?_, hq⟩
          simp only [solveIterCore]
          rw [hr]
          show (if (regUpdatePhase (lsPhase p th s1).2.1
                (lsPhase p th s1).1).2 = true
              then some ((regUpdatePhase (lsPhase p th s1).2.1
                (lsPhase p th s1).1).1, some false)
              else if (lsBook p th i s1).wasFeasible = true ∧
                  (lsBook p th i s1).stop < th.th_stop
                then some (lsBook p th i s1, some true)
                else some (lsBook p th i s1, none)) =
            some (lsBook p th i s1, some true)
          rw [if_neg hsat, if_pos hconv]
        · refine ⟨lsBook p th i s1, none, ?_, hq⟩
          simp only [solveIterCore]
          rw [hr]
          show (if (regUpdatePhase (lsPhase p th s1).2.1
                (lsPhase p th s1).1).2 = true
              then some ((regUpdatePhase (lsPhase p th s1).2.1
                (lsPhase p th s1).1).1, some false)
              else if (lsBook p th i s1).wasFeasible = true ∧
                  (lsBook p th i s1).stop < th.th_stop
                then some (lsBook p th i s1, some true)
                else some (lsBook p th i s1, none)) =
            some (lsBook p th i s1, none)
          rw [if_neg hsat, if_neg hconv]

/-- Unfolding lemma: one iteration of the outer `solve` loop. -/
lemma solveLoop_succ (p : ShootingProblem ndx nu) (th : Thresholds)
    (fuel m i : ℕ) (s : DDPState ndx nu) :
    solveLoop p th fuel (m + 1) i s =
      (match solveIterCore p th fuel i s with
       | none => none
       | some (s1, some b) => some (s1, b)
       | some (s1, none) => solveLoop p th fuel m (i + 1) s1) := rfl

/-- The outer `solve` loop returns a pair whenever the fuel chosen from the
invariant lower bound `L` on the regularization suffices for every retry
loop it runs. -/
lemma solveLoop_isSome (p : ShootingProblem ndx nu) (th : Thresholds)
    (L : ℚ) (hL0 : 0 < L) (hLmin : L ≤ regMin) (F : ℕ)
    (hF : regMax ≤ L * regFactor ^ F) :
    ∀ (maxiter i : ℕ) (s : DDPState ndx nu), L ≤ s.x_reg →
      (solveLoop p th (F + 1) maxiter i s).isSome = true := by
  intro maxiter
  induction maxiter with
  | zero =>
      intro i s hs
      rfl
  | succ m ih =>
      intro i s hs
      have hcx : L ≤ (calcPass p s).1.x_reg := by
        rw [(calcPass_regs p s).1]
        exact hs
      have hbw : (bwRetry p (F + 1) (calcPass p s).1).isSome = true := by
        apply bwRetry_isSome p F (calcPass p s).1 (lt_of_lt_of_le hL0 hcx)
        exact le_trans hF (mul_le_mul_of_nonneg_right hcx
          (pow_nonneg (by norm_num [regFactor]) F))
      obtain ⟨s1, o, hiter, hs1⟩ :=
        solveIterCore_some p th (F + 1) i s L hL0 hLmin hbw hs
      rcases o with _ | b
      · rw [solveLoop_succ, hiter]
        show (solveLoop p th (F + 1) m (i + 1) s1).isSome = true
        exact ih (i + 1) s1 hs1
      · rw [solveLoop_succ, hiter]
        rfl

/-- C7: `solve` never escapes with an error.  Every return of the outer
loop is of the form `(trajectory, converged)` built from the last candidate
(`self.xs, self.us`), and for any positive initial regularization there is
enough fuel for the (in Python unbounded) backward-pass retry loop, so
`solve` reaches one of its returns: every `ArithmeticError` of the backward
pass (failed Cholesky factorization or a `raiseIfNan` hit) and of the
forward pass (`raiseIfNan` on a cost or state) is consumed inside the loop,
and the observable outcome is a trajectory with a boolean, `False` covering
both `maxiter` exhaustion and regularization saturation. -/
theorem C7_solve_no_escape (p : ShootingProblem ndx nu) (th : Thresholds)
    (init_xs : ℕ → QVec ndx) (init_us : ℕ → QVec nu) (maxiter : ℕ)
    (feas : Bool) (regInit : Option ℚ) (h0 : 0 < regInit.getD regMin) :
    (∀ (fuel : ℕ) (r : DDPState ndx nu × Bool),
      solveLoop p th fuel maxiter 0
          (mkSolveState p init_xs init_us feas regInit) = some r →
      solve p th fuel init_xs init_us maxiter feas regInit =
        some (r.1.xs, r.1.us, r.2)) ∧
    (∃ (fuel : ℕ) (xs : ℕ → QVec ndx) (us : ℕ → QVec nu) (b : Bool),
      solve p th fuel init_xs init_us maxiter feas regInit =
        some (xs, us, b)) := by
  constructor
  · intro fuel r hr
    simp only [solve]
    rw [hr]
    rfl
  · have hL0 : 0 < min (regInit.getD regMin) regMin :=
      lt_min h0 (by norm_num [regMin])
    have hLmin : min (regInit.getD regMin) regMin ≤ regMin := min_le_right _ _
    obtain ⟨F, hF⟩ := exists_reg_fuel (min (regInit.getD regMin) regMin) hL0
    have hinit : min (regInit.getD regMin) regMin ≤
        (mkSolveState p init_xs init_us feas regInit).x_reg := min_le_left _ _
    have hsome := solveLoop_isSome p th (min (regInit.getD regMin) regMin)
      hL0 hLmin F hF maxiter 0
      (mkSolveState p init_xs init_us feas regInit) hinit
    rcases hr : solveLoop p th (F + 1) maxiter 0
        (mkSolveState p init_xs init_us feas regInit) with _ | r
    · rw [hr] at hsome
      cases hsome
    · refine ⟨F + 1, r.1.xs, r.1.us, r.2, ?_⟩
      simp only [solve]
      rw [hr]
      rfl

/-- C7 witness: on the concrete `exP3` run with default regularization the
hypothesis holds and `solve` returns a trajectory-boolean pair. -/
theorem C7_witness :
    (0 : ℚ) < (none : Option ℚ).getD regMin ∧
    ((∀ (fuel : ℕ) (r : DDPState 1 1 × Bool),
      solveLoop exP3 exTh3 fuel 1 0
          (mkSolveState exP3 exXs3 exUs3 true none) = some r →
      solve exP3 exTh3 fuel exXs3 exUs3 1 true none =
        some (r.1.xs, r.1.us, r.2)) ∧
    (∃ (fuel : ℕ) (xs : ℕ → QVec 1) (us : ℕ → QVec 1) (b : Bool),
      solve exP3 exTh3 fuel exXs3 exUs3 1 true none = some (xs, us, b))) :=
  ⟨by decide, C7_solve_no_escape exP3 exTh3 exXs3 exUs3 1 true none (by decide)⟩

end CrocoddylDDP
